import Mathlib

/-!
Verification of the DelaTrain scraper core against its specification.

The Python sources under `delatrain/` are shallowly embedded: pure
functions become Lean functions, stateful methods become explicit state
passing over a `ScraperState` structure, Python `float` quantities that
only flow through comparisons and sums are modelled as `ℚ`, and external
collaborators (the map/schedule data sources, `networkx` shortest paths,
the haversine distance) are passed in as explicit function parameters.
-/

namespace DelaTrain

/-- A latitude/longitude pair (`structures/position.py`, `Position`).
Coordinates are modelled as rationals; the haversine `distance_to` is an
external float computation and is passed around as a function parameter
where a distance is needed. -/
structure Position where
  latitude : ℚ
  longitude : ℚ
deriving DecidableEq, Repr

/-- A railway station (`structures/stations.py`, `Station`).  Python
equality and hash consider only `name` (`compare=False` on the other
fields), so identity-relevant comparisons below go through `name`. -/
structure Station where
  name : String
  location : Position := ⟨0, 0⟩
deriving DecidableEq, Repr

/-- Station equality as Python implements it: by `name` only. -/
def stationEq (a b : Station) : Bool :=
  a.name == b.name

/-- One stop of a train itinerary (`structures/trains.py`, `TrainStop`).
`arrival_time` / `departure_time` are `datetime.time | None` in Python;
only nullness and equality matter to the embedded code, so times are
modelled as `Option Nat` (minutes).  The `track` field takes part in the
frozen dataclass equality and hash, and is kept (as an opaque string
option standing for the `StationTrack` record). -/
structure TrainStop where
  station_name : String
  arrival_time : Option Nat
  departure_time : Option Nat
  track : Option String
deriving DecidableEq, Repr

instance : BEq TrainStop := ⟨fun a b => decide (a = b)⟩

/-- A schedule listing reference (`structures/trains.py`, `TrainSummary`).
Equality and hash use only `(category, number)` (`compare=False` on
`url`, `days`). -/
structure TrainSummary where
  category : String
  number : Nat
  url : String
  days : String
deriving DecidableEq, Repr

/-- A fully fetched train (`structures/trains.py`, `Train`).  Python
equality and hash use only `(category, number)`; `params` is a `set[str]`
modelled as a `Finset String`. -/
structure Train where
  category : String
  number : Nat
  name : Option String
  stops : List TrainStop
  params : Finset String
deriving DecidableEq

/-- Python `==` on `Train`: `(category, number)` only. -/
def trainEq (a b : Train) : Bool :=
  a.category == b.category && a.number == b.number

instance : BEq Train := ⟨trainEq⟩

/-- Python `==` on `TrainSummary` against a `Train`, as used via
`hash(summary) == hash(t)` in `_scrape_station`: both hashes are the
hash of the `(category, number)` field tuple, so the comparison is
modelled as equality of those pairs (collision-free hashing). -/
def summaryMatchesTrain (s : TrainSummary) (t : Train) : Bool :=
  s.category == t.category && s.number == t.number

/-- Python `x or y` on `str | None` values: `x` unless `x` is `None` or
the empty string (falsy), in which case `y`. -/
def pyOr (x y : Option String) : Option String :=
  match x with
  | none => y
  | some s => if s = "" then y else some s

/-- `ScraperState._handle_duplicate_subtrain` (algorithm.py:131) after a
duplicate `found` has been detected: the selection of the winning train
and the in-place `name` / `params` mutations performed on it.

```
result = found
if len(train.stops) > len(found.stops):
    result = train
elif train.number < found.number:
    result = train
result.name = result.name or train.name
result.params.update(train.params)
```
-/
def mergeWinner (train found : Train) : Train :=
  let result :=
    if train.stops.length > found.stops.length then train
    else if train.number < found.number then train
    else found
  { result with
      name := pyOr result.name train.name
      params := result.params ∪ train.params }

/-- Dict lookup `self.all_stops[stop]` guarded by `stop in self.all_stops`
(the `all_stops : dict[TrainStop, Train]` index of timed stops); the dict
is modelled as an association list with first-match lookup. -/
def lookupStop (allStops : List (TrainStop × Train)) (s : TrainStop) : Option Train :=
  (allStops.find? (fun kv => kv.1 == s)).map (·.2)

/-- The `for existing_stop in train.stops` loop of
`ScraperState._find_duplicate_subtrain` (algorithm.py:120): carries the
`found` variable, returns `found` as soon as the train indexed by the
current stop equals it. -/
def findDuplicateLoop (allStops : List (TrainStop × Train)) :
    Option Train → List TrainStop → Option Train
  | _, [] => none
  | found, s :: rest =>
    match lookupStop allStops s with
    | none => findDuplicateLoop allStops found rest
    | some t =>
      if found == some t then found
      else findDuplicateLoop allStops (some t) rest

/-- `ScraperState._find_duplicate_subtrain` (algorithm.py:115): direct
`(category, number)` match against the known trains first, then the
timed-stop loop. -/
def findDuplicateSubtrain (trains : List Train) (allStops : List (TrainStop × Train))
    (train : Train) : Option Train :=
  if trains.contains train then trains.find? (fun t => t == train)
  else findDuplicateLoop allStops none train.stops

/-- The first train appearing twice in immediate succession in a list of
matched trains (used to characterize what the duplicate loop actually
detects). -/
def firstAdjacentDup : List Train → Option Train
  | a :: b :: rest => if a == b then some a else firstAdjacentDup (b :: rest)
  | _ => none

theorem trainEq_comm (a b : Train) : (a == b) = (b == a) := by
  show trainEq a b = trainEq b a
  unfold trainEq
  rw [Bool.eq_iff_iff]
  simp only [Bool.and_eq_true, beq_iff_eq]
  constructor <;> exact fun h => ⟨h.1.symm, h.2.symm⟩

theorem trainEq_refl (a : Train) : (a == a) = true := by
  show trainEq a a = true
  unfold trainEq
  simp

/-- Generalization of `firstAdjacentDup` carrying the `found`
accumulator, used to relate the stop loop to the matched-train list. -/
def firstAdjacentDupFrom : Option Train → List Train → Option Train
  | _, [] => none
  | found, t :: rest =>
    if found == some t then found else firstAdjacentDupFrom (some t) rest

theorem findDuplicateLoop_eq_from (allStops : List (TrainStop × Train)) :
    ∀ (stops : List TrainStop) (found : Option Train),
      findDuplicateLoop allStops found stops
        = firstAdjacentDupFrom found (stops.filterMap (lookupStop allStops))
  | [], found => by cases found <;> rfl
  | s :: rest, found => by
    rw [findDuplicateLoop]
    cases hl : lookupStop allStops s with
    | none =>
      rw [findDuplicateLoop_eq_from allStops rest found]
      simp [List.filterMap_cons, hl]
    | some t =>
      simp only [List.filterMap_cons, hl]
      rw [firstAdjacentDupFrom]
      by_cases hft : (found == some t) = true
      · rw [if_pos hft, if_pos hft]
      · rw [if_neg hft, if_neg hft]
        exact findDuplicateLoop_eq_from allStops rest (some t)

theorem firstAdjacentDupFrom_some (t : Train) :
    ∀ l : List Train, firstAdjacentDupFrom (some t) l = firstAdjacentDup (t :: l)
  | [] => rfl
  | u :: rest => by
    rw [firstAdjacentDupFrom, firstAdjacentDup]
    have hbeq : (some t == some u) = (t == u) := rfl
    rw [hbeq]
    by_cases htu : (t == u) = true
    · rw [if_pos htu, if_pos htu]
    · rw [if_neg htu, if_neg htu]
      exact firstAdjacentDupFrom_some u rest

theorem firstAdjacentDupFrom_none (l : List Train) :
    firstAdjacentDupFrom none l = firstAdjacentDup l := by
  cases l with
  | nil => rfl
  | cons t rest =>
    rw [firstAdjacentDupFrom]
    have hbeq : (none == some t) = false := rfl
    rw [hbeq, if_neg (by simp)]
    exact firstAdjacentDupFrom_some t rest

theorem firstAdjacentDup_count {l : List Train} {t : Train}
    (h : firstAdjacentDup l = some t) : 2 ≤ l.countP (fun x => x == t) := by
  induction l with
  | nil => simp [firstAdjacentDup] at h
  | cons a rest ih =>
    cases rest with
    | nil => simp [firstAdjacentDup] at h
    | cons b rest' =>
      rw [firstAdjacentDup] at h
      by_cases hab : (a == b) = true
      · rw [if_pos hab] at h
        cases h
        have hbt : (b == t) = true := by rw [trainEq_comm] at hab; exact hab
        have h2 : (b :: rest').countP (fun x => x == t) ≥ 1 := by
          rw [List.countP_cons, if_pos hbt]
          omega
        rw [List.countP_cons, if_pos (trainEq_refl t)]
        omega
      · rw [if_neg hab] at h
        have h2 := ih h
        rw [List.countP_cons]
        by_cases hat : (a == t) = true
        · rw [if_pos hat]; omega
        · rw [if_neg hat]; omega

/-- Claim C1 (corrected): the duplicate-merge winner rule as the code
implements it.  At concrete trains where the incoming train has strictly
fewer stops but a strictly lower number, the code makes the incoming
train win, while the claim says the previously-known train is kept; the
winning incoming train also keeps its own (empty) name and its own
params instead of absorbing the loser's. -/
theorem c1_counterexample :
    let s1 : TrainStop := ⟨"Alpha", some 10, none, none⟩
    let s2 : TrainStop := ⟨"Beta", some 20, none, none⟩
    let tc : Train := ⟨"TLK", 5, none, [s1], {"p"}⟩
    let fc : Train := ⟨"IC", 10, some "N", [s1, s2], {"q"}⟩
    tc.stops.length < fc.stops.length ∧ tc.number ≠ fc.number ∧
      (mergeWinner tc fc).number = tc.number ∧
      (mergeWinner tc fc).name = none ∧
      (mergeWinner tc fc).params = {"p"} := by
  refine ⟨by decide, by decide, rfl, rfl, ?_⟩
  decide

/-- Claim C1 (amended): the incoming train wins exactly when it has
strictly more stops or — regardless of the stop counts — a strictly
lower train number; a winning incoming train keeps its own name and
params unchanged, while a winning previously-known train takes the
incoming train's name when its own is falsy and unions the incoming
train's params into its own. -/
theorem c1_merge_winner (t f : Train) :
    mergeWinner t f =
      if t.stops.length > f.stops.length ∨ t.number < f.number then t
      else { f with name := pyOr f.name t.name, params := f.params ∪ t.params } := by
  have hpyor : ∀ x : Option String, pyOr x x = x := by
    intro x
    cases x with
    | none => rfl
    | some s => by_cases hs : s = "" <;> simp [pyOr, hs]
  simp only [mergeWinner]
  by_cases h1 : t.stops.length > f.stops.length
  · rw [if_pos h1, if_pos (Or.inl h1), hpyor, Finset.union_self]
  · rw [if_neg h1]
    by_cases h2 : t.number < f.number
    · rw [if_pos h2, if_pos (Or.inr h2), hpyor, Finset.union_self]
    · rw [if_neg h2, if_neg (by tauto : ¬ (t.stops.length > f.stops.length
        ∨ t.number < f.number))]

/-- Claim C2 (corrected): an incoming train that shares two timed stops
with known train T1, interleaved with a stop shared with a different
known train T2, is not detected as a duplicate — the loop only fires on
two matched stops in immediate succession mapping to the same train. -/
theorem c2_counterexample :
    let s1 : TrainStop := ⟨"Alpha", some 1, none, none⟩
    let s2 : TrainStop := ⟨"Beta", some 2, none, none⟩
    let s3 : TrainStop := ⟨"Gamma", some 3, none, none⟩
    let t1 : Train := ⟨"IC", 1, none, [s1, s3], ∅⟩
    let t2 : Train := ⟨"IC", 2, none, [s2], ∅⟩
    let tr : Train := ⟨"IC", 3, none, [s1, s2, s3], ∅⟩
    let allStops : List (TrainStop × Train) := [(s1, t1), (s2, t2), (s3, t1)]
    ([t1, t2].contains tr = false) ∧
      s1 ∈ tr.stops ∧ s3 ∈ tr.stops ∧ s1 ≠ s3 ∧
      s1 ∈ t1.stops ∧ s3 ∈ t1.stops ∧
      s1.arrival_time.isSome ∧ s3.arrival_time.isSome ∧
      lookupStop allStops s1 = some t1 ∧ lookupStop allStops s3 = some t1 ∧
      findDuplicateSubtrain [t1, t2] allStops tr = none := by
  decide

/-- Claim C2 (amended): for an incoming train with no direct
`(category, number)` match, the duplicate finder returns exactly the
first known train indexed by two *immediately consecutive* matched timed
stops of the incoming train (so interleaved matches with another train
defeat detection); any returned train is matched by at least two of the
incoming train's stop occurrences. -/
theorem c2_duplicate_detection (trains : List Train)
    (allStops : List (TrainStop × Train)) (train : Train)
    (hdirect : trains.contains train = false) :
    findDuplicateSubtrain trains allStops train
      = firstAdjacentDup (train.stops.filterMap (lookupStop allStops))
    ∧ ∀ t, findDuplicateSubtrain trains allStops train = some t →
        2 ≤ (train.stops.filterMap (lookupStop allStops)).countP (fun x => x == t) := by
  have hmain : findDuplicateSubtrain trains allStops train
      = firstAdjacentDup (train.stops.filterMap (lookupStop allStops)) := by
    unfold findDuplicateSubtrain
    rw [if_neg (by simp [hdirect])]
    rw [findDuplicateLoop_eq_from, firstAdjacentDupFrom_none]
  refine ⟨hmain, fun t ht => ?_⟩
  rw [hmain] at ht
  exact firstAdjacentDup_count ht

/-- The summary-enqueue loop of `ScraperState._scrape_station`
(algorithm.py:104): skip banned categories, then append any summary whose
`(category, number)` identity matches no blacklisted train and no known
train (hash comparison modelled as identity-pair equality). -/
def enqueueStep (banned : List String) (blacklisted trains : List Train)
    (q : List TrainSummary) (summary : TrainSummary) : List TrainSummary :=
  if banned.contains summary.category then q
  else if blacklisted.all (fun t => !(summaryMatchesTrain summary t))
       && trains.all (fun t => !(summaryMatchesTrain summary t))
  then q ++ [summary] else q

/-- The whole `for summary in train_summaries` loop of
`ScraperState._scrape_station`. -/
def scrapeStationEnqueue (banned : List String) (blacklisted trains : List Train)
    (queue : List TrainSummary) (summaries : List TrainSummary) : List TrainSummary :=
  summaries.foldl (enqueueStep banned blacklisted trains) queue

/-- The admission predicate of the amended claim C3: category not
banned, no blacklisted identity match, no known-train identity match. -/
def summaryAdmissible (banned : List String) (blacklisted trains : List Train)
    (s : TrainSummary) : Bool :=
  !(banned.contains s.category)
  && blacklisted.all (fun t => !(summaryMatchesTrain s t))
  && trains.all (fun t => !(summaryMatchesTrain s t))

/-- Claim C3 (corrected): a summary that is already in the train-scrape
queue (and is not banned, blacklisted, or known) is appended again — the
code never consults the queue itself, so the claimed iff fails at any
state whose queue already holds the summary. -/
theorem c3_counterexample :
    let s0 : TrainSummary := ⟨"IC", 7, "url", "days"⟩
    s0 ∈ [s0] ∧ scrapeStationEnqueue [] [] [] [s0] [s0] = [s0, s0] := by
  decide

/-- Claim C3 (amended): during one scrape-station step a fetched summary
is appended to the train-scrape queue if and only if its category is not
banned, its (category, number) identity matches no blacklisted train and
no already-known Train; whether it is already present in the queue is
not checked, so already-queued summaries are appended a second time. -/
theorem c3_enqueue (banned : List String) (blacklisted trains : List Train)
    (queue : List TrainSummary) (summaries : List TrainSummary) :
    scrapeStationEnqueue banned blacklisted trains queue summaries
      = queue ++ summaries.filter (summaryAdmissible banned blacklisted trains) := by
  induction summaries generalizing queue with
  | nil => simp [scrapeStationEnqueue]
  | cons s rest ih =>
    rw [scrapeStationEnqueue, List.foldl_cons, List.filter_cons]
    by_cases hb : banned.contains s.category = true
    · have h1 : enqueueStep banned blacklisted trains queue s = queue := by
        unfold enqueueStep
        rw [if_pos hb]
      have h2 : summaryAdmissible banned blacklisted trains s = false := by
        unfold summaryAdmissible
        rw [hb]
        rfl
      rw [h1, h2, if_neg (by simp)]
      exact ih queue
    · have hbf : banned.contains s.category = false := by
        revert hb
        cases banned.contains s.category <;> simp
      by_cases hok : (blacklisted.all (fun t => !(summaryMatchesTrain s t))
          && trains.all (fun t => !(summaryMatchesTrain s t))) = true
      · have h1 : enqueueStep banned blacklisted trains queue s = queue ++ [s] := by
          unfold enqueueStep
          rw [if_neg hb, if_pos hok]
        have h2 : summaryAdmissible banned blacklisted trains s = true := by
          unfold summaryAdmissible
          rw [hbf]
          simp only [Bool.not_false, Bool.true_and]
          exact hok
        rw [h1, h2, if_pos rfl]
        calc List.foldl (enqueueStep banned blacklisted trains) (queue ++ [s]) rest
            = (queue ++ [s]) ++ rest.filter (summaryAdmissible banned blacklisted trains) :=
              ih (queue ++ [s])
          _ = queue ++ s :: rest.filter (summaryAdmissible banned blacklisted trains) := by
              simp
      · have hokf : (blacklisted.all (fun t => !(summaryMatchesTrain s t))
            && trains.all (fun t => !(summaryMatchesTrain s t))) = false := by
          revert hok
          cases blacklisted.all (fun t => !(summaryMatchesTrain s t))
            && trains.all (fun t => !(summaryMatchesTrain s t)) <;> simp
        have h1 : enqueueStep banned blacklisted trains queue s = queue := by
          unfold enqueueStep
          rw [if_neg hb, hokf, if_neg (by simp)]
        have h2 : summaryAdmissible banned blacklisted trains s = false := by
          unfold summaryAdmissible
          rw [hbf]
          simp only [Bool.not_false, Bool.true_and]
          exact hokf
        rw [h1, h2, if_neg (by simp)]
        exact ih queue

/-- A rail polyline between two stations (`structures/paths.py`, `Rail`).
`points`/`max_speed` carry `compare=False, hash=False`, so Python
equality and hash use only the station pair. -/
structure Rail where
  start_station : Station
  end_station : Station
  points : List Position
  max_speed : List ℚ
deriving DecidableEq

/-- `Rail.__post_init__` (paths.py:37): keep the given order when
`start_station.name < end_station.name`, otherwise swap the endpoints
and reverse both arrays. -/
def mkRail (s e : Station) (points : List Position) (max_speed : List ℚ) : Rail :=
  if s.name < e.name then ⟨s, e, points, max_speed⟩
  else ⟨e, s, points.reverse, max_speed.reverse⟩

/-- Python `==` on `Rail`: the `(start_station, end_station)` field
tuple, with `Station` equality by name. -/
def railEq (a b : Rail) : Bool :=
  stationEq a.start_station b.start_station && stationEq a.end_station b.end_station

/-- Python `hash` on `Rail`: the hash of the `(start_station,
end_station)` tuple, modelled (collision-free) as the name pair. -/
def railHash (r : Rail) : String × String :=
  (r.start_station.name, r.end_station.name)

/-- Claim C4 (corrected): for two stations with the *same* name the
constructor swaps unconditionally (the strict `<` fails), so the two
construction orders yield reversed — not equal — point sequences. -/
theorem c4_counterexample :
    (mkRail ⟨"Alpha", ⟨0, 0⟩⟩ ⟨"Alpha", ⟨0, 0⟩⟩ [⟨1, 1⟩, ⟨2, 2⟩] []).points
      ≠ (mkRail ⟨"Alpha", ⟨0, 0⟩⟩ ⟨"Alpha", ⟨0, 0⟩⟩
          [(⟨1, 1⟩ : Position), ⟨2, 2⟩].reverse []).points := by
  have h1 : ¬ ("Alpha" : String) < "Alpha" := lt_irrefl _
  simp only [mkRail, if_neg h1, List.reverse_reverse]
  decide

/-- Claim C4 (amended): for any two stations with distinct names,
constructing a Rail as (A, B, points, speeds) and as (B, A, reversed
points, reversed speeds) yields the same (start_station, end_station)
pair with the lexicographically smaller name first and equal point and
speed sequences; Rail equality and hash depend only on the endpoint
name pair, not on geometry. -/
theorem c4_rail_canonicalization (a b : Station) (p : List Position) (v : List ℚ)
    (h : a.name ≠ b.name) :
    (mkRail a b p v).start_station = (mkRail b a p.reverse v.reverse).start_station
    ∧ (mkRail a b p v).end_station = (mkRail b a p.reverse v.reverse).end_station
    ∧ (mkRail a b p v).start_station.name < (mkRail a b p v).end_station.name
    ∧ (mkRail a b p v).points = (mkRail b a p.reverse v.reverse).points
    ∧ (mkRail a b p v).max_speed = (mkRail b a p.reverse v.reverse).max_speed
    ∧ ∀ r r' : Rail, railEq r r' = true ↔ railHash r = railHash r' := by
  have hdep : ∀ r r' : Rail, railEq r r' = true ↔ railHash r = railHash r' := by
    intro r r'
    unfold railEq railHash stationEq
    simp [Bool.and_eq_true, beq_iff_eq, Prod.ext_iff]
  rcases Ne.lt_or_lt h with hab | hba
  · have hnb : ¬ b.name < a.name := lt_asymm hab
    simp [mkRail, hab, hnb, hdep]
  · have hna : ¬ a.name < b.name := lt_asymm hba
    simp [mkRail, hba, hna, hdep]

theorem c4_rail_canonicalization_witness :
    (mkRail ⟨"Alpha", ⟨0, 0⟩⟩ ⟨"Beta", ⟨0, 0⟩⟩ [⟨1, 1⟩, ⟨2, 2⟩] [10]).points
      = (mkRail ⟨"Beta", ⟨0, 0⟩⟩ ⟨"Alpha", ⟨0, 0⟩⟩
          [(⟨1, 1⟩ : Position), ⟨2, 2⟩].reverse [(10 : ℚ)].reverse).points :=
  (c4_rail_canonicalization ⟨"Alpha", ⟨0, 0⟩⟩ ⟨"Beta", ⟨0, 0⟩⟩ [⟨1, 1⟩, ⟨2, 2⟩] [10]
    (by decide)).2.2.2.1

/-- A routing rule (`structures/paths.py`, `RoutingRule`). -/
structure RoutingRule where
  start_station : String
  end_station : String
  via : List String
deriving DecidableEq

/-- `RoutingRule.__post_init__` (paths.py:144): same canonicalization as
`Rail` — swap endpoints and reverse `via` unless already ordered. -/
def mkRoutingRule (s e : String) (via : List String) : RoutingRule :=
  if s < e then ⟨s, e, via⟩ else ⟨e, s, via.reverse⟩

/-- The station-connectivity graph built by `construct_rails_graph`
(routing.py:12): nodes are station names with a `pos` attribute, edges
carry a rational `length` (the float Rail length).  The underlying
`networkx.Graph` is undirected; `hasEdge`/`edgeLength` look an edge up
in either orientation. -/
structure RGraph where
  nodes : List (String × Position)
  edges : List (String × String × ℚ)
deriving DecidableEq

def RGraph.hasEdge (g : RGraph) (a b : String) : Bool :=
  g.edges.any (fun e => (e.1 == a && e.2.1 == b) || (e.1 == b && e.2.1 == a))

def RGraph.edgeLength (g : RGraph) (a b : String) : ℚ :=
  match g.edges.find? (fun e => (e.1 == a && e.2.1 == b) || (e.1 == b && e.2.1 == a)) with
  | some e => e.2.2
  | none => 0

def RGraph.pos (g : RGraph) (a : String) : Position :=
  match g.nodes.find? (fun n => n.1 == a) with
  | some n => n.2
  | none => ⟨0, 0⟩

/-- `_MAX_PATH_LENGTH_MULTIPLIER = 3.5` (routing.py:6). -/
def maxPathLengthMultiplier : ℚ := 7 / 2

/-- `sum(graph[path[j]][path[j+1]]["length"] for j in range(len(path)-1))`. -/
def pathLen (g : RGraph) : List String → ℚ
  | a :: b :: rest => g.edgeLength a b + pathLen g (b :: rest)
  | _ => 0

/-- The consecutive pairs of a list (`range(len(xs) - 1)` indexing). -/
def pathPairs : List String → List (String × String)
  | a :: b :: rest => (a, b) :: pathPairs (b :: rest)
  | _ => []

/-- A routing-error value: `None` for "no path", or
`(via, path_length / direct_length)` for an implausible path. -/
abbrev ErrVal := Option (List String × ℚ)

abbrev ErrEntry := (String × String) × ErrVal

/-- `find_rule_for_path` (routing.py:23).  The `networkx`
`shortest_path` collaborator is passed in as `sp` (returning `none` when
it raises `NetworkXNoPath`/`NodeNotFound`), and the haversine distance
as `dist`.  The in-place `rail.redundant = False` marks are returned as
the third component (the list of marked edge endpoint pairs).  In the
implausible-path branch the code divides `path_length / direct_length`
(routing.py:33); when the direct distance is zero this raises an
uncaught `ZeroDivisionError`, embedded as `Except.error ()`. -/
def find_rule_for_path (g : RGraph) (sp : String → String → Option (List String))
    (dist : Position → Position → ℚ) (start finish : String) :
    Except Unit (Option RoutingRule × List ErrEntry × List (String × String)) :=
  if g.hasEdge start finish then Except.ok (none, [], [(start, finish)])
  else
    match sp start finish with
    | none => Except.ok (none, [((start, finish), none)], [])
    | some path =>
      if pathLen g path > dist (g.pos start) (g.pos finish) * maxPathLengthMultiplier then
        if dist (g.pos start) (g.pos finish) = 0 then Except.error ()
        else
          Except.ok (none, [((start, finish),
                   some ((path.drop 1).dropLast,
                         pathLen g path / dist (g.pos start) (g.pos finish)))], [])
      else
        Except.ok (some (mkRoutingRule start finish ((path.drop 1).dropLast)), [], pathPairs path)

/-- Python `dict` insertion as performed by `errors |= error`:
overwrite in place when the key exists, otherwise append. -/
def dictInsertEntry (m : List ErrEntry) (kv : ErrEntry) : List ErrEntry :=
  if m.any (fun e => decide (e.1 = kv.1)) then m.map (fun e => if e.1 = kv.1 then kv else e)
  else m ++ [kv]

def dictMerge (m : List ErrEntry) (new : List ErrEntry) : List ErrEntry :=
  new.foldl dictInsertEntry m

/-- The loop of `find_rules_for_train` (routing.py:45): one iteration
per consecutive stop pair; an exception escaping `find_rule_for_path`
aborts the whole loop (nothing in routing.py catches it). -/
def analyzeLoop (g : RGraph) (sp : String → String → Option (List String))
    (dist : Position → Position → ℚ) :
    List (String × String) →
    List RoutingRule × List ErrEntry × List (String × String) →
    Except Unit (List RoutingRule × List ErrEntry × List (String × String))
  | [], acc => Except.ok acc
  | se :: rest, acc =>
    match find_rule_for_path g sp dist se.1 se.2 with
    | Except.error e => Except.error e
    | Except.ok res =>
      analyzeLoop g sp dist rest
        (acc.1 ++ res.1.toList, dictMerge acc.2.1 res.2.1, acc.2.2 ++ res.2.2)

/-- `find_rules_for_train` (routing.py:42): iterate over the train's
consecutive stop pairs, collecting rules, merged errors, and the
used-rail marks; a `ZeroDivisionError` propagates out. -/
def find_rules_for_train (g : RGraph) (sp : String → String → Option (List String))
    (dist : Position → Position → ℚ) (train : Train) :
    Except Unit (List RoutingRule × List ErrEntry × List (String × String)) :=
  analyzeLoop g sp dist (pathPairs (train.stops.map (·.station_name))) ([], [], [])

/-- The rule component a pair contributes when its analysis completes. -/
def ruleOf (g : RGraph) (sp : String → String → Option (List String))
    (dist : Position → Position → ℚ) (se : String × String) : Option RoutingRule :=
  match find_rule_for_path g sp dist se.1 se.2 with
  | Except.ok res => res.1
  | Except.error _ => none

/-- The error entries a pair contributes when its analysis completes. -/
def errOf (g : RGraph) (sp : String → String → Option (List String))
    (dist : Position → Position → ℚ) (se : String × String) : List ErrEntry :=
  match find_rule_for_path g sp dist se.1 se.2 with
  | Except.ok res => res.2.1
  | Except.error _ => []

/-- The used-rail marks a pair contributes when its analysis completes. -/
def usedOf (g : RGraph) (sp : String → String → Option (List String))
    (dist : Position → Position → ℚ) (se : String × String) : List (String × String) :=
  match find_rule_for_path g sp dist se.1 se.2 with
  | Except.ok res => res.2.2
  | Except.error _ => []

theorem analyzeLoop_cons (g : RGraph) (sp : String → String → Option (List String))
    (dist : Position → Position → ℚ) (se : String × String)
    (rest : List (String × String))
    (acc : List RoutingRule × List ErrEntry × List (String × String)) :
    analyzeLoop g sp dist (se :: rest) acc
      = match find_rule_for_path g sp dist se.1 se.2 with
        | Except.error e => Except.error e
        | Except.ok res =>
          analyzeLoop g sp dist rest
            (acc.1 ++ res.1.toList, dictMerge acc.2.1 res.2.1, acc.2.2 ++ res.2.2) :=
  rfl

theorem find_rule_edge (g : RGraph) (sp : String → String → Option (List String))
    (dist : Position → Position → ℚ) (s e : String) (h : g.hasEdge s e = true) :
    find_rule_for_path g sp dist s e = Except.ok (none, [], [(s, e)]) := by
  unfold find_rule_for_path
  rw [if_pos h]

theorem find_rule_nopath (g : RGraph) (sp : String → String → Option (List String))
    (dist : Position → Position → ℚ) (s e : String)
    (h1 : g.hasEdge s e = false) (h2 : sp s e = none) :
    find_rule_for_path g sp dist s e = Except.ok (none, [((s, e), none)], []) := by
  unfold find_rule_for_path
  rw [if_neg (by simp [h1]), h2]

theorem find_rule_accept (g : RGraph) (sp : String → String → Option (List String))
    (dist : Position → Position → ℚ) (s e : String) (p : List String)
    (h1 : g.hasEdge s e = false) (h2 : sp s e = some p)
    (h3 : ¬ pathLen g p > dist (g.pos s) (g.pos e) * maxPathLengthMultiplier) :
    find_rule_for_path g sp dist s e
      = Except.ok (some (mkRoutingRule s e ((p.drop 1).dropLast)), [], pathPairs p) := by
  unfold find_rule_for_path
  rw [if_neg (by simp [h1]), h2]
  dsimp only
  rw [if_neg h3]

theorem find_rule_toolong (g : RGraph) (sp : String → String → Option (List String))
    (dist : Position → Position → ℚ) (s e : String) (p : List String)
    (h1 : g.hasEdge s e = false) (h2 : sp s e = some p)
    (h3 : pathLen g p > dist (g.pos s) (g.pos e) * maxPathLengthMultiplier)
    (h4 : dist (g.pos s) (g.pos e) ≠ 0) :
    find_rule_for_path g sp dist s e
      = Except.ok (none,
          [((s, e), some ((p.drop 1).dropLast, pathLen g p / dist (g.pos s) (g.pos e)))],
          []) := by
  unfold find_rule_for_path
  rw [if_neg (by simp [h1]), h2]
  dsimp only
  rw [if_pos h3, if_neg h4]

theorem find_rule_divzero (g : RGraph) (sp : String → String → Option (List String))
    (dist : Position → Position → ℚ) (s e : String) (p : List String)
    (h1 : g.hasEdge s e = false) (h2 : sp s e = some p)
    (h3 : pathLen g p > dist (g.pos s) (g.pos e) * maxPathLengthMultiplier)
    (h4 : dist (g.pos s) (g.pos e) = 0) :
    find_rule_for_path g sp dist s e = Except.error () := by
  unfold find_rule_for_path
  rw [if_neg (by simp [h1]), h2]
  dsimp only
  rw [if_pos h3, if_pos h4]

theorem ruleOf_eq_of_ok (g : RGraph) (sp : String → String → Option (List String))
    (dist : Position → Position → ℚ) (se : String × String)
    (res : Option RoutingRule × List ErrEntry × List (String × String))
    (h : find_rule_for_path g sp dist se.1 se.2 = Except.ok res) :
    ruleOf g sp dist se = res.1 := by
  unfold ruleOf
  rw [h]

theorem errOf_eq_of_ok (g : RGraph) (sp : String → String → Option (List String))
    (dist : Position → Position → ℚ) (se : String × String)
    (res : Option RoutingRule × List ErrEntry × List (String × String))
    (h : find_rule_for_path g sp dist se.1 se.2 = Except.ok res) :
    errOf g sp dist se = res.2.1 := by
  unfold errOf
  rw [h]

theorem usedOf_eq_of_ok (g : RGraph) (sp : String → String → Option (List String))
    (dist : Position → Position → ℚ) (se : String × String)
    (res : Option RoutingRule × List ErrEntry × List (String × String))
    (h : find_rule_for_path g sp dist se.1 se.2 = Except.ok res) :
    usedOf g sp dist se = res.2.2 := by
  unfold usedOf
  rw [h]

theorem errOf_shape (g : RGraph) (sp : String → String → Option (List String))
    (dist : Position → Position → ℚ) (se : String × String) :
    errOf g sp dist se = [] ∨ ∃ v, errOf g sp dist se = [(se, v)] := by
  by_cases h1 : g.hasEdge se.1 se.2 = true
  · rw [errOf_eq_of_ok g sp dist se _ (find_rule_edge g sp dist se.1 se.2 h1)]
    exact Or.inl rfl
  · have h1' : g.hasEdge se.1 se.2 = false := by
      revert h1; cases g.hasEdge se.1 se.2 <;> simp
    cases hsp : sp se.1 se.2 with
    | none =>
      rw [errOf_eq_of_ok g sp dist se _ (find_rule_nopath g sp dist se.1 se.2 h1' hsp)]
      exact Or.inr ⟨none, rfl⟩
    | some p =>
      by_cases h2 : pathLen g p > dist (g.pos se.1) (g.pos se.2) * maxPathLengthMultiplier
      · by_cases h3 : dist (g.pos se.1) (g.pos se.2) = 0
        · unfold errOf
          rw [find_rule_divzero g sp dist se.1 se.2 p h1' hsp h2 h3]
          exact Or.inl rfl
        · rw [errOf_eq_of_ok g sp dist se _
            (find_rule_toolong g sp dist se.1 se.2 p h1' hsp h2 h3)]
          exact Or.inr ⟨_, rfl⟩
      · rw [errOf_eq_of_ok g sp dist se _
          (find_rule_accept g sp dist se.1 se.2 p h1' hsp h2)]
        exact Or.inl rfl

theorem ruleOf_some (g : RGraph) (sp : String → String → Option (List String))
    (dist : Position → Position → ℚ) (se : String × String) (r : RoutingRule)
    (h : ruleOf g sp dist se = some r) :
    g.hasEdge se.1 se.2 = false ∧ ∃ v, r = mkRoutingRule se.1 se.2 v := by
  by_cases h1 : g.hasEdge se.1 se.2 = true
  · rw [ruleOf_eq_of_ok g sp dist se _ (find_rule_edge g sp dist se.1 se.2 h1)] at h
    exact absurd h (by simp)
  · have h1' : g.hasEdge se.1 se.2 = false := by
      revert h1; cases g.hasEdge se.1 se.2 <;> simp
    refine ⟨h1', ?_⟩
    cases hsp : sp se.1 se.2 with
    | none =>
      rw [ruleOf_eq_of_ok g sp dist se _ (find_rule_nopath g sp dist se.1 se.2 h1' hsp)] at h
      exact absurd h (by simp)
    | some p =>
      by_cases h2 : pathLen g p > dist (g.pos se.1) (g.pos se.2) * maxPathLengthMultiplier
      · by_cases h3 : dist (g.pos se.1) (g.pos se.2) = 0
        · unfold ruleOf at h
          rw [find_rule_divzero g sp dist se.1 se.2 p h1' hsp h2 h3] at h
          dsimp only at h
          exact absurd h (by simp)
        · rw [ruleOf_eq_of_ok g sp dist se _
            (find_rule_toolong g sp dist se.1 se.2 p h1' hsp h2 h3)] at h
          exact absurd h (by simp)
      · rw [ruleOf_eq_of_ok g sp dist se _
          (find_rule_accept g sp dist se.1 se.2 p h1' hsp h2)] at h
        exact ⟨_, (Option.some_injective _ h).symm⟩

theorem analyzeLoop_rules (g : RGraph) (sp : String → String → Option (List String))
    (dist : Position → Position → ℚ) :
    ∀ (pairs : List (String × String))
      (acc out : List RoutingRule × List ErrEntry × List (String × String)),
      analyzeLoop g sp dist pairs acc = Except.ok out →
      out.1 = acc.1 ++ pairs.filterMap (ruleOf g sp dist)
  | [], acc, out, hok => by
    have hok' : (Except.ok acc : Except Unit _) = Except.ok out := hok
    injection hok' with he
    rw [← he]
    simp
  | se :: rest, acc, out, hok => by
    rw [analyzeLoop_cons] at hok
    cases hf : find_rule_for_path g sp dist se.1 se.2 with
    | error e =>
      rw [hf] at hok
      dsimp only at hok
      exact absurd hok (by simp)
    | ok res =>
      rw [hf] at hok
      dsimp only at hok
      rw [analyzeLoop_rules g sp dist rest _ out hok, List.filterMap_cons,
        ruleOf_eq_of_ok g sp dist se res hf]
      cases res.1 with
      | none => simp
      | some r => simp

theorem analyzeLoop_used (g : RGraph) (sp : String → String → Option (List String))
    (dist : Position → Position → ℚ) :
    ∀ (pairs : List (String × String))
      (acc out : List RoutingRule × List ErrEntry × List (String × String)),
      analyzeLoop g sp dist pairs acc = Except.ok out →
      out.2.2 = acc.2.2 ++ (pairs.map (usedOf g sp dist)).flatten
  | [], acc, out, hok => by
    have hok' : (Except.ok acc : Except Unit _) = Except.ok out := hok
    injection hok' with he
    rw [← he]
    simp
  | se :: rest, acc, out, hok => by
    rw [analyzeLoop_cons] at hok
    cases hf : find_rule_for_path g sp dist se.1 se.2 with
    | error e =>
      rw [hf] at hok
      dsimp only at hok
      exact absurd hok (by simp)
    | ok res =>
      rw [hf] at hok
      dsimp only at hok
      rw [analyzeLoop_used g sp dist rest _ out hok]
      simp [usedOf_eq_of_ok g sp dist se res hf, List.append_assoc]

/-- If any consecutive pair of the analyzed list hits the zero-divisor
branch, the whole loop aborts with the exception. -/
theorem analyzeLoop_error (g : RGraph) (sp : String → String → Option (List String))
    (dist : Position → Position → ℚ) :
    ∀ (pairs : List (String × String))
      (acc : List RoutingRule × List ErrEntry × List (String × String))
      (se : String × String),
      se ∈ pairs →
      find_rule_for_path g sp dist se.1 se.2 = Except.error () →
      analyzeLoop g sp dist pairs acc = Except.error ()
  | [], _, _, hp, _ => absurd hp (List.not_mem_nil _)
  | hd :: rest, acc, se, hp, herr => by
    rw [analyzeLoop_cons]
    rcases List.mem_cons.mp hp with hse | hrest
    · subst hse
      rw [herr]
    · cases hf : find_rule_for_path g sp dist hd.1 hd.2 with
      | error e =>
        cases e
        rfl
      | ok res =>
        dsimp only
        exact analyzeLoop_error g sp dist rest _ se hrest herr

/-- Every accumulated error entry is exactly the entry its own key pair
generates; this pins down the value stored under each key. -/
def errInv (g : RGraph) (sp : String → String → Option (List String))
    (dist : Position → Position → ℚ) (m : List ErrEntry) : Prop :=
  ∀ kv ∈ m, kv ∈ errOf g sp dist kv.1

theorem errInv_insert {g : RGraph} {sp : String → String → Option (List String)}
    {dist : Position → Position → ℚ} {m : List ErrEntry} {kv : ErrEntry}
    (hm : errInv g sp dist m)
    (hkv : kv ∈ errOf g sp dist kv.1) :
    errInv g sp dist (dictInsertEntry m kv) := by
  intro e he
  unfold dictInsertEntry at he
  by_cases hany : m.any (fun x => decide (x.1 = kv.1)) = true
  · rw [if_pos hany] at he
    obtain ⟨e₀, he₀, heq⟩ := List.mem_map.mp he
    by_cases hk : e₀.1 = kv.1
    · rw [if_pos hk] at heq
      subst heq
      exact hkv
    · rw [if_neg hk] at heq
      subst heq
      exact hm e₀ he₀
  · rw [if_neg hany] at he
    rcases List.mem_append.mp he with h | h
    · exact hm e h
    · rw [List.mem_singleton.mp h]
      exact hkv

theorem errInv_merge {g : RGraph} {sp : String → String → Option (List String)}
    {dist : Position → Position → ℚ} {m : List ErrEntry} {se : String × String}
    (hm : errInv g sp dist m) :
    errInv g sp dist (dictMerge m (errOf g sp dist se)) := by
  rcases errOf_shape g sp dist se with h | ⟨v, h⟩
  · rw [h]
    exact hm
  · rw [h]
    show errInv g sp dist (dictInsertEntry m (se, v))
    refine errInv_insert hm ?_
    show ((se, v) : ErrEntry) ∈ errOf g sp dist se
    rw [h]
    exact List.mem_singleton.mpr rfl

theorem errInv_loop (g : RGraph) (sp : String → String → Option (List String))
    (dist : Position → Position → ℚ) :
    ∀ (pairs : List (String × String))
      (acc out : List RoutingRule × List ErrEntry × List (String × String)),
      analyzeLoop g sp dist pairs acc = Except.ok out →
      errInv g sp dist acc.2.1 →
      errInv g sp dist out.2.1
  | [], acc, out, hok, h => by
    have hok' : (Except.ok acc : Except Unit _) = Except.ok out := hok
    injection hok' with he
    rw [← he]
    exact h
  | se :: rest, acc, out, hok, h => by
    rw [analyzeLoop_cons] at hok
    cases hf : find_rule_for_path g sp dist se.1 se.2 with
    | error e =>
      rw [hf] at hok
      dsimp only at hok
      exact absurd hok (by simp)
    | ok res =>
      rw [hf] at hok
      dsimp only at hok
      refine errInv_loop g sp dist rest _ out hok ?_
      show errInv g sp dist (dictMerge acc.2.1 res.2.1)
      rw [← errOf_eq_of_ok g sp dist se res hf]
      exact errInv_merge h

theorem mem_dictInsertEntry_self (m : List ErrEntry) (kv : ErrEntry) :
    kv ∈ dictInsertEntry m kv := by
  unfold dictInsertEntry
  by_cases hany : m.any (fun x => decide (x.1 = kv.1)) = true
  · rw [if_pos hany]
    obtain ⟨e₀, he₀, hk⟩ := List.any_eq_true.mp hany
    refine List.mem_map.mpr ⟨e₀, he₀, ?_⟩
    rw [if_pos (of_decide_eq_true hk)]
  · rw [if_neg hany]
    exact List.mem_append.mpr (Or.inr (List.mem_singleton.mpr rfl))

theorem mem_dictInsertEntry_preserve {g : RGraph}
    {sp : String → String → Option (List String)} {dist : Position → Position → ℚ}
    {m : List ErrEntry} {kv kv' : ErrEntry}
    (hkv : kv ∈ errOf g sp dist kv.1)
    (hkv' : kv' ∈ errOf g sp dist kv'.1)
    (hmem : kv ∈ m) :
    kv ∈ dictInsertEntry m kv' := by
  unfold dictInsertEntry
  by_cases hany : m.any (fun x => decide (x.1 = kv'.1)) = true
  · rw [if_pos hany]
    refine List.mem_map.mpr ⟨kv, hmem, ?_⟩
    by_cases hk : kv.1 = kv'.1
    · rw [if_pos hk]
      rw [← hk] at hkv'
      rcases errOf_shape g sp dist kv.1 with h | ⟨v, h⟩
      · rw [h] at hkv
        exact absurd hkv (List.not_mem_nil kv)
      · rw [h] at hkv hkv'
        rw [List.mem_singleton.mp hkv', List.mem_singleton.mp hkv]
    · rw [if_neg hk]
  · rw [if_neg hany]
    exact List.mem_append.mpr (Or.inl hmem)

theorem mem_dictMerge_preserve {g : RGraph}
    {sp : String → String → Option (List String)} {dist : Position → Position → ℚ}
    {m : List ErrEntry} {kv : ErrEntry} {se : String × String}
    (hkv : kv ∈ errOf g sp dist kv.1)
    (hmem : kv ∈ m) :
    kv ∈ dictMerge m (errOf g sp dist se) := by
  rcases errOf_shape g sp dist se with h | ⟨v, h⟩
  · rw [h]
    exact hmem
  · rw [h]
    show kv ∈ dictInsertEntry m (se, v)
    refine mem_dictInsertEntry_preserve hkv ?_ hmem
    show ((se, v) : ErrEntry) ∈ errOf g sp dist se
    rw [h]
    exact List.mem_singleton.mpr rfl

theorem err_presence_loop (g : RGraph) (sp : String → String → Option (List String))
    (dist : Position → Position → ℚ) :
    ∀ (pairs : List (String × String))
      (acc out : List RoutingRule × List ErrEntry × List (String × String))
      (kv : ErrEntry),
      analyzeLoop g sp dist pairs acc = Except.ok out →
      kv ∈ errOf g sp dist kv.1 →
      kv ∈ acc.2.1 →
      kv ∈ out.2.1
  | [], acc, out, kv, hok, _, hmem => by
    have hok' : (Except.ok acc : Except Unit _) = Except.ok out := hok
    injection hok' with he
    rw [← he]
    exact hmem
  | se :: rest, acc, out, kv, hok, hkv, hmem => by
    rw [analyzeLoop_cons] at hok
    cases hf : find_rule_for_path g sp dist se.1 se.2 with
    | error e =>
      rw [hf] at hok
      dsimp only at hok
      exact absurd hok (by simp)
    | ok res =>
      rw [hf] at hok
      dsimp only at hok
      refine err_presence_loop g sp dist rest _ out kv hok hkv ?_
      show kv ∈ dictMerge acc.2.1 res.2.1
      rw [← errOf_eq_of_ok g sp dist se res hf]
      exact mem_dictMerge_preserve hkv hmem

theorem RGraph.hasEdge_symm (g : RGraph) (a b : String) :
    g.hasEdge a b = g.hasEdge b a := by
  unfold RGraph.hasEdge
  apply congrArg
  funext e
  exact Bool.or_comm _ _

theorem mkRoutingRule_eq_pair {a b s e : String} {v w : List String}
    (h : mkRoutingRule a b v = mkRoutingRule s e w) :
    (a = s ∧ b = e) ∨ (a = e ∧ b = s) := by
  unfold mkRoutingRule at h
  by_cases h1 : a < b
  · rw [if_pos h1] at h
    by_cases h2 : s < e
    · rw [if_pos h2, RoutingRule.mk.injEq] at h
      exact Or.inl ⟨h.1, h.2.1⟩
    · rw [if_neg h2, RoutingRule.mk.injEq] at h
      exact Or.inr ⟨h.1, h.2.1⟩
  · rw [if_neg h1] at h
    by_cases h2 : s < e
    · rw [if_pos h2, RoutingRule.mk.injEq] at h
      exact Or.inr ⟨h.2.1, h.1⟩
    · rw [if_neg h2, RoutingRule.mk.injEq] at h
      exact Or.inl ⟨h.2.1, h.1⟩

theorem err_mem_loop (g : RGraph) (sp : String → String → Option (List String))
    (dist : Position → Position → ℚ) :
    ∀ (pairs : List (String × String))
      (acc out : List RoutingRule × List ErrEntry × List (String × String))
      (se : String × String) (v : ErrVal),
      analyzeLoop g sp dist pairs acc = Except.ok out →
      se ∈ pairs →
      (se, v) ∈ errOf g sp dist se →
      (se, v) ∈ out.2.1
  | [], _, _, _, _, _, hp, _ => absurd hp (List.not_mem_nil _)
  | hd :: rest, acc, out, se, v, hok, hp, hv => by
    rw [analyzeLoop_cons] at hok
    cases hf : find_rule_for_path g sp dist hd.1 hd.2 with
    | error e =>
      rw [hf] at hok
      dsimp only at hok
      exact absurd hok (by simp)
    | ok res =>
      rw [hf] at hok
      dsimp only at hok
      rcases List.mem_cons.mp hp with hse | hrest
      · subst hse
        refine err_presence_loop g sp dist rest _ out (se, v) hok ?_ ?_
        · show ((se, v) : ErrEntry) ∈ errOf g sp dist se
          exact hv
        · show (se, v) ∈ dictMerge acc.2.1 res.2.1
          rw [← errOf_eq_of_ok g sp dist se res hf]
          rcases errOf_shape g sp dist se with h | ⟨w, h⟩
          · rw [h] at hv
            exact absurd hv (List.not_mem_nil _)
          · rw [h] at hv ⊢
            rw [List.mem_singleton.mp hv]
            show ((se, w) : ErrEntry) ∈ dictInsertEntry acc.2.1 (se, w)
            exact mem_dictInsertEntry_self acc.2.1 (se, w)
      · exact err_mem_loop g sp dist rest _ out se v hok hrest hv

/-- With distinct station names P and R placed at identical coordinates
(the haversine distance of equal coordinates is exactly 0.0) and the
only P–R path P–Q–R of positive length, the implausible-path branch is
taken with a zero direct distance. -/
def c5graph : RGraph :=
  ⟨[("P", ⟨0, 0⟩), ("Q", ⟨5, 5⟩), ("R", ⟨0, 0⟩)], [("P", "Q", 10), ("Q", "R", 10)]⟩

def c5sp : String → String → Option (List String) :=
  fun a b => if a == "P" && b == "R" then some ["P", "Q", "R"] else none

def c5dist : Position → Position → ℚ :=
  fun p q => if p = q then 0 else 1

def c5train : Train :=
  ⟨"IC", 1, none, [⟨"P", some 1, none, none⟩, ⟨"R", some 2, none, none⟩], ∅⟩

/-- Claim C5, counterexample: stations P and R are distinct but share
coordinates, so the direct distance is 0; the only path P–Q–R has length
20 > 0 × 3.5, so the code reaches `path_length / direct_length` with a
zero divisor and `find_rules_for_train` aborts with the embedded
`ZeroDivisionError` instead of recording a keyed error — the spec's
"no exception is raised" fails. -/
theorem c5_counterexample :
    c5graph.hasEdge "P" "R" = false
    ∧ c5sp "P" "R" = some ["P", "Q", "R"]
    ∧ c5dist (c5graph.pos "P") (c5graph.pos "R") = 0
    ∧ pathLen c5graph ["P", "Q", "R"]
        > c5dist (c5graph.pos "P") (c5graph.pos "R") * maxPathLengthMultiplier
    ∧ find_rules_for_train c5graph c5sp c5dist c5train = Except.error () := by
  have hedge : c5graph.hasEdge "P" "R" = false := rfl
  have hsp : c5sp "P" "R" = some ["P", "Q", "R"] := rfl
  have hdz : c5dist (c5graph.pos "P") (c5graph.pos "R") = 0 := by
    rw [show c5graph.pos "P" = ⟨0, 0⟩ from rfl, show c5graph.pos "R" = ⟨0, 0⟩ from rfl]
    show (if (⟨0, 0⟩ : Position) = ⟨0, 0⟩ then (0 : ℚ) else 1) = 0
    rw [if_pos rfl]
  have hlen : pathLen c5graph ["P", "Q", "R"]
      > c5dist (c5graph.pos "P") (c5graph.pos "R") * maxPathLengthMultiplier := by
    rw [show pathLen c5graph ["P", "Q", "R"] = (10 : ℚ) + (10 + 0) from rfl, hdz,
      show maxPathLengthMultiplier = (7 : ℚ) / 2 from rfl]
    norm_num
  refine ⟨hedge, hsp, hdz, hlen, ?_⟩
  show analyzeLoop c5graph c5sp c5dist
    (pathPairs (c5train.stops.map (·.station_name))) ([], [], []) = Except.error ()
  exact analyzeLoop_error c5graph c5sp c5dist _ _ ("P", "R") (by decide)
    (find_rule_divzero c5graph c5sp c5dist "P" "R" ["P", "Q", "R"] hedge hsp hlen hdz)

/-- Claim C5 (amended): per consecutive stop pair of an analyzed train,
whenever the analysis completes, (i) no rule and no error is emitted and
the direct rail is marked used when a direct edge exists; (ii) a
RoutingRule listing the intermediate stations and no error is emitted
when an accepted (≤ 3.5 × direct distance) path exists; (iii) a keyed
error with the via list and ratio is recorded when the path is too long
and the direct distance is nonzero; (iv) a keyed error with reason
`none` is recorded when no path exists.  When the path is too long but
the direct distance is zero, the ratio division raises an uncaught
`ZeroDivisionError` and the whole analysis aborts. -/
theorem c5_route_analyzer (g : RGraph) (sp : String → String → Option (List String))
    (dist : Position → Position → ℚ) (train : Train) (s e : String)
    (hpair : (s, e) ∈ pathPairs (train.stops.map (·.station_name))) :
    (∀ out, find_rules_for_train g sp dist train = Except.ok out →
      (g.hasEdge s e = true →
         (∀ v, mkRoutingRule s e v ∉ out.1)
         ∧ (∀ v, ((s, e), v) ∉ out.2.1)
         ∧ (s, e) ∈ out.2.2)
      ∧ (∀ p, g.hasEdge s e = false → sp s e = some p →
           ¬ pathLen g p > dist (g.pos s) (g.pos e) * maxPathLengthMultiplier →
           mkRoutingRule s e ((p.drop 1).dropLast) ∈ out.1
           ∧ (∀ v, ((s, e), v) ∉ out.2.1))
      ∧ (∀ p, g.hasEdge s e = false → sp s e = some p →
           pathLen g p > dist (g.pos s) (g.pos e) * maxPathLengthMultiplier →
           dist (g.pos s) (g.pos e) ≠ 0 →
           ((s, e), some ((p.drop 1).dropLast, pathLen g p / dist (g.pos s) (g.pos e)))
             ∈ out.2.1)
      ∧ (g.hasEdge s e = false → sp s e = none →
           ((s, e), none) ∈ out.2.1))
    ∧ (∀ p, g.hasEdge s e = false → sp s e = some p →
         pathLen g p > dist (g.pos s) (g.pos e) * maxPathLengthMultiplier →
         dist (g.pos s) (g.pos e) = 0 →
         find_rules_for_train g sp dist train = Except.error ()) := by
  constructor
  · intro out hok
    have hloop : analyzeLoop g sp dist
        (pathPairs (train.stops.map (·.station_name))) ([], [], []) = Except.ok out := hok
    have herrInv : errInv g sp dist out.2.1 :=
      errInv_loop g sp dist _ _ out hloop (fun kv hkv => absurd hkv (List.not_mem_nil kv))
    have herrKey : ∀ v : ErrVal, ((s, e), v) ∈ out.2.1 →
        ((s, e), v) ∈ errOf g sp dist (s, e) :=
      fun v hv => herrInv _ hv
    refine ⟨fun hedge => ⟨?_, ?_, ?_⟩, fun p hedge hsp hlen => ⟨?_, ?_⟩,
      fun p hedge hsp hlen hnz => ?_, fun hedge hsp => ?_⟩
    · intro v hv
      rw [analyzeLoop_rules g sp dist _ _ out hloop] at hv
      dsimp only at hv
      rw [List.nil_append] at hv
      obtain ⟨se', hse', heq⟩ := List.mem_filterMap.mp hv
      obtain ⟨hfalse, v', hv'⟩ := ruleOf_some g sp dist se' _ heq
      rcases mkRoutingRule_eq_pair hv'.symm with ⟨h1, h2⟩ | ⟨h1, h2⟩
      · rw [← h1, ← h2] at hedge
        rw [hedge] at hfalse
        exact absurd hfalse (by simp)
      · rw [RGraph.hasEdge_symm] at hedge
        rw [← h1, ← h2] at hedge
        rw [hedge] at hfalse
        exact absurd hfalse (by simp)
    · intro v hv
      have h2 := herrKey v hv
      rw [errOf_eq_of_ok g sp dist (s, e) _ (find_rule_edge g sp dist s e hedge)] at h2
      exact absurd h2 (List.not_mem_nil _)
    · rw [analyzeLoop_used g sp dist _ _ out hloop]
      dsimp only
      rw [List.nil_append]
      refine List.mem_flatten.mpr ⟨usedOf g sp dist (s, e), ?_, ?_⟩
      · exact List.mem_map_of_mem _ hpair
      · rw [usedOf_eq_of_ok g sp dist (s, e) _ (find_rule_edge g sp dist s e hedge)]
        exact List.mem_singleton.mpr rfl
    · rw [analyzeLoop_rules g sp dist _ _ out hloop]
      dsimp only
      rw [List.nil_append]
      refine List.mem_filterMap.mpr ⟨(s, e), hpair, ?_⟩
      rw [ruleOf_eq_of_ok g sp dist (s, e) _ (find_rule_accept g sp dist s e p hedge hsp hlen)]
    · intro v hv
      have h2 := herrKey v hv
      rw [errOf_eq_of_ok g sp dist (s, e) _
        (find_rule_accept g sp dist s e p hedge hsp hlen)] at h2
      exact absurd h2 (List.not_mem_nil _)
    · refine err_mem_loop g sp dist _ _ out (s, e) _ hloop hpair ?_
      rw [errOf_eq_of_ok g sp dist (s, e) _
        (find_rule_toolong g sp dist s e p hedge hsp hlen hnz)]
      exact List.mem_singleton.mpr rfl
    · refine err_mem_loop g sp dist _ _ out (s, e) _ hloop hpair ?_
      rw [errOf_eq_of_ok g sp dist (s, e) _ (find_rule_nopath g sp dist s e hedge hsp)]
      exact List.mem_singleton.mpr rfl
  · intro p hedge hsp hlen hz
    show analyzeLoop g sp dist
      (pathPairs (train.stops.map (·.station_name))) ([], [], []) = Except.error ()
    exact analyzeLoop_error g sp dist _ _ (s, e) hpair
      (find_rule_divzero g sp dist s e p hedge hsp hlen hz)

/-- A three-station fixture (the P–Q–R scenario of the spec's testable
properties) used to instantiate the route-analyzer theorem. -/
def demoGraph : RGraph :=
  ⟨[("P", ⟨0, 0⟩), ("Q", ⟨0, 1⟩), ("R", ⟨0, 2⟩)], [("P", "Q", 10), ("Q", "R", 10)]⟩

def demoSp : String → String → Option (List String) :=
  fun a b => if a == "P" && b == "R" then some ["P", "Q", "R"] else none

def demoDist : Position → Position → ℚ :=
  fun _ _ => 6

def demoTrain : Train :=
  ⟨"IC", 1, none, [⟨"P", some 1, none, none⟩, ⟨"R", some 2, none, none⟩], ∅⟩

theorem c5_route_analyzer_witness :
    find_rules_for_train demoGraph demoSp demoDist demoTrain
        = Except.ok ([mkRoutingRule "P" "R" ["Q"]], [], [("P", "Q"), ("Q", "R")])
    ∧ mkRoutingRule "P" "R" ["Q"]
        ∈ (([mkRoutingRule "P" "R" ["Q"]], [], [("P", "Q"), ("Q", "R")]) :
            List RoutingRule × List ErrEntry × List (String × String)).1 := by
  have hlen : ¬ pathLen demoGraph ["P", "Q", "R"]
      > demoDist (demoGraph.pos "P") (demoGraph.pos "R") * maxPathLengthMultiplier := by
    rw [show pathLen demoGraph ["P", "Q", "R"] = (10 : ℚ) + (10 + 0) from rfl,
        show demoDist (demoGraph.pos "P") (demoGraph.pos "R") = 6 from rfl,
        show maxPathLengthMultiplier = (7 : ℚ) / 2 from rfl]
    norm_num
  have hfr : find_rule_for_path demoGraph demoSp demoDist "P" "R"
      = Except.ok (some (mkRoutingRule "P" "R" ["Q"]), [], [("P", "Q"), ("Q", "R")]) :=
    find_rule_accept demoGraph demoSp demoDist "P" "R" ["P", "Q", "R"] rfl rfl hlen
  have hok : find_rules_for_train demoGraph demoSp demoDist demoTrain
      = Except.ok ([mkRoutingRule "P" "R" ["Q"]], [], [("P", "Q"), ("Q", "R")]) := by
    show analyzeLoop demoGraph demoSp demoDist [("P", "R")] ([], [], []) = _
    rw [analyzeLoop_cons]
    rw [show find_rule_for_path demoGraph demoSp demoDist ("P", "R").1 ("P", "R").2
        = Except.ok (some (mkRoutingRule "P" "R" ["Q"]), [], [("P", "Q"), ("Q", "R")])
      from hfr]
    rfl
  exact ⟨hok,
    ((c5_route_analyzer demoGraph demoSp demoDist demoTrain "P" "R" (by decide)).1
      _ hok).2.1 ["P", "Q", "R"] rfl rfl hlen |>.1⟩

/-- The orchestrator state (`algorithm.py`, `ScraperState`).  Python
sets are modelled as lists (membership-guarded insertion keeps them
duplicate-free), dicts as association lists. -/
structure ScraperState where
  day : Nat
  rail_interval : Nat
  default_max_speed : Nat
  banned_categories : List String
  stations_to_locate : List String
  stations_to_scrape : List Station
  trains_to_scrape : List TrainSummary
  broken_stations : List String
  all_stops : List (TrainStop × Train)
  blacklisted_trains : List Train
  stations : List Station
  trains : List Train
  rails_to_find : List Station
  rails_to_simplify : List ((String × String) × Rail)
  trains_to_analyze : List Train
  rails : List ((String × String) × Rail)
  routing_rules : List ((String × String) × RoutingRule)
deriving DecidableEq

/-- `ScraperState.__post_init__` (algorithm.py:47): a fresh state with
only the starting station queued for location. -/
def initState (day : Nat) (starting_station : String) : ScraperState :=
  { day := day
    rail_interval := 0
    default_max_speed := 0
    banned_categories := []
    stations_to_locate := [starting_station]
    stations_to_scrape := []
    trains_to_scrape := []
    broken_stations := []
    all_stops := []
    blacklisted_trains := []
    stations := []
    trains := []
    rails_to_find := []
    rails_to_simplify := []
    trains_to_analyze := []
    rails := []
    routing_rules := [] }

/-- `ScraperState._cascade_station_deletion` (algorithm.py:184): the
trains stopping at the broken station, and the other broken stations no
remaining train reaches (the `for … else` appends a station exactly when
the inner loop never breaks). -/
def cascadeStationDeletion (st : ScraperState) (station_name : String) :
    List Train × List String :=
  let trains_to_delete :=
    st.trains.filter (fun t => t.stops.any (fun stop => stop.station_name == station_name))
  (trains_to_delete,
   station_name :: st.broken_stations.filter (fun s =>
     !(s == station_name)
     && !(st.trains.any (fun t =>
           !(trains_to_delete.contains t)
           && t.stops.any (fun stop => stop.station_name == s)))))

/-- Python `str` whitespace for `.strip()`. -/
def pyIsSpace (c : Char) : Bool :=
  c == ' ' || c == '\t' || c == '\n' || c == '\r' || c == '\x0b' || c == '\x0c'

/-- Python `str.strip()`. -/
def pyStrip (s : String) : String :=
  ⟨((s.data.dropWhile pyIsSpace).reverse.dropWhile pyIsSpace).reverse⟩

/-- Python `str.lower()` (ASCII range, which covers the `"y"` check). -/
def pyLowerChar (c : Char) : Char :=
  if 'A' ≤ c && c ≤ 'Z' then Char.ofNat (c.toNat + 32) else c

def pyLower (s : String) : String :=
  ⟨s.data.map pyLowerChar⟩

/-- `ScraperState._delete_broken_station` (algorithm.py:202): the
cascade is computed (and logged for confirmation) from the unmodified
state; a non-"y" answer raises before any field is mutated, which the
embedding renders as an `Except.error` carrying no successor state. -/
def deleteBrokenStation (st : ScraperState) (station_name confirm : String) :
    Except String ScraperState :=
  if pyLower (pyStrip confirm) ≠ "y" then Except.error "Station deletion aborted"
  else Except.ok
    { st with
        trains := (cascadeStationDeletion st station_name).1.foldl
          (fun ts t => ts.erase t) st.trains
        blacklisted_trains :=
          st.blacklisted_trains ++ (cascadeStationDeletion st station_name).1
        broken_stations := (cascadeStationDeletion st station_name).2.foldl
          (fun bs s => bs.erase s) st.broken_stations }

/-- Claim C7: if the operator declines the confirmation prompt, the
deletion aborts with a recoverable error and no successor state — every
field of the orchestrator state is exactly as before the call (the
cascading consequences are a pure function of the unmodified state and
are computed before any mutation). -/
theorem c7_delete_abort (st : ScraperState) (station_name confirm : String)
    (h : pyLower (pyStrip confirm) ≠ "y") :
    deleteBrokenStation st station_name confirm = Except.error "Station deletion aborted"
    ∧ ∀ st' : ScraperState, deleteBrokenStation st station_name confirm ≠ Except.ok st' := by
  unfold deleteBrokenStation
  rw [if_pos h]
  exact ⟨rfl, fun st' hcontra => Except.noConfusion hcontra⟩

theorem c7_delete_abort_witness :
    deleteBrokenStation (initState 0 "Alpha") "Beta" "n"
      = Except.error "Station deletion aborted" :=
  (c7_delete_abort (initState 0 "Alpha") "Beta" "n" (by decide)).1

/-- `utils.py`, `oneshot_cache`: the wrapper's `(has_run, result)` cell
is modelled as an `Option` cache threaded through the calls; the cached
result is returned whenever the cell is filled, regardless of the new
argument. -/
def oneshotCall {α β : Type} (f : α → β) (cache : Option β) (x : α) : Option β × β :=
  match cache with
  | some r => (some r, r)
  | none => (some (f x), f x)

/-- Sum of consecutive point distances (`Rail.length`, paths.py:45). -/
def posPathLen (dist : Position → Position → ℚ) : List Position → ℚ
  | a :: b :: rest => dist a b + posPathLen dist (b :: rest)
  | _ => 0

/-- `construct_rails_graph` (routing.py:11, without its
`@oneshot_cache` decorator): add each rail's endpoints as nodes (if
absent) with their `location` as `pos`, and one edge per rail weighted
by the rail's length. -/
def constructRailsGraph (dist : Position → Position → ℚ) (rails : List Rail) : RGraph :=
  rails.foldl (fun g rail =>
    let g1 := if g.nodes.any (fun n => n.1 == rail.start_station.name) then g
              else { g with nodes := g.nodes ++ [(rail.start_station.name, rail.start_station.location)] }
    let g2 := if g1.nodes.any (fun n => n.1 == rail.end_station.name) then g1
              else { g1 with nodes := g1.nodes ++ [(rail.end_station.name, rail.end_station.location)] }
    { g2 with edges := g2.edges ++
        [(rail.start_station.name, rail.end_station.name, posPathLen dist rail.points)] })
    ⟨[], []⟩

/-- Claim C10: the `@oneshot_cache` decorator caches the first result
and ignores the argument of every later call, so the second call with a
different rail set still returns the graph built from the first rail
set; consequently every route analysis after the first uses the first
analysis's station graph. -/
theorem c10_oneshot_cache (dist : Position → Position → ℚ) (r1 r2 : List Rail) :
    (oneshotCall (constructRailsGraph dist) none r1).2 = constructRailsGraph dist r1
    ∧ (oneshotCall (constructRailsGraph dist)
        (oneshotCall (constructRailsGraph dist) none r1).1 r2).2
      = constructRailsGraph dist r1 := by
  exact ⟨rfl, rfl⟩

/-- `Rail.construct_graph` (paths.py:48): a directed chain with one
edge per consecutive point pair, carrying `max_speed[i]`. -/
def constructGraph : List Position → List ℚ → List (Position × Position × ℚ)
  | p1 :: p2 :: rest, s :: speeds => (p1, p2, s) :: constructGraph (p2 :: rest) speeds
  | _, _ => []

/-- `next(graph.successors(p), None)`: the first inserted out-edge of
`p` (duplicate consecutive points hash to the same node, so a repeated
point yields a self-loop whose successor is the node itself). -/
def firstSuccessor (edges : List (Position × Position × ℚ)) (p : Position) : Option Position :=
  (edges.find? (fun e => e.1 == p)).map (·.2.1)

/-- `_find_point_at_distance` (paths.py:8), with an explicit fuel
parameter standing for the number of iterations of its `while True`
loop: `none` means the loop has not returned within `fuel` iterations
(so `∀ fuel, … = none` is non-termination of the Python loop). -/
def findPointAtDistance (dist : Position → Position → ℚ)
    (edges : List (Position × Position × ℚ)) :
    Nat → Position → ℚ → ℚ → List Position → Option (List Position × Option Position)
  | 0, _, _, _, _ => none
  | fuel + 1, current, distance, acc, visited =>
    match firstSuccessor edges current with
    | none => some (visited, none)
    | some next_position =>
      if acc + dist current next_position ≥ distance then
        some (visited ++ [next_position],
          some ⟨current.latitude + ((distance - acc) / dist current next_position)
                  * (next_position.latitude - current.latitude),
                current.longitude + ((distance - acc) / dist current next_position)
                  * (next_position.longitude - current.longitude)⟩)
      else
        findPointAtDistance dist edges fuel next_position distance
          (acc + dist current next_position) (visited ++ [next_position])

/-- The first subcall `_find_point_at_distance(graph, self.points[0],
interval)` performed by `Rail.simplify_by_resampling` (paths.py:67) on
its constructed chain graph. -/
def simplifyProbe (dist : Position → Position → ℚ) (r : Rail) (interval : ℚ)
    (fuel : Nat) : Option (List Position × Option Position) :=
  match r.points with
  | [] => none
  | p0 :: _ => findPointAtDistance dist (constructGraph r.points r.max_speed) fuel p0 interval 0 []

theorem findPointAtDistance_selfloop (dist : Position → Position → ℚ)
    (edges : List (Position × Position × ℚ)) (P : Position)
    (hsucc : firstSuccessor edges P = some P) (hd : dist P P = 0)
    (interval : ℚ) (hpos : 0 < interval) :
    ∀ (fuel : Nat) (visited : List Position),
      findPointAtDistance dist edges fuel P interval 0 visited = none
  | 0, _ => rfl
  | fuel + 1, visited => by
    rw [findPointAtDistance, hsucc]
    dsimp only
    have hcond : ¬ ((0 : ℚ) + dist P P ≥ interval) := by
      rw [hd]
      simp only [add_zero, ge_iff_le, not_le]
      exact hpos
    rw [if_neg hcond, hd, add_zero]
    exact findPointAtDistance_selfloop dist edges P hsucc hd interval hpos fuel _

/-- Claim C6 (code bug): a rail whose point list repeats a point in two
consecutive positions satisfies the claim's precondition (at least one
point, `len(points) - 1 == len(max_speed)`), yet `construct_graph`
produces a self-loop and the first `_find_point_at_distance` walk
follows that self-loop forever (each iteration adds a zero-length
segment and never reaches the interval), so `simplify_by_resampling`
never terminates and its final assertion is never even reached. -/
theorem c6_simplify_diverges (dist : Position → Position → ℚ) (st1 st2 : Station)
    (P : Position) (s interval : ℚ) (hd : dist P P = 0) (hpos : 0 < interval) :
    (Rail.mk st1 st2 [P, P] [s]).points.length ≥ 1
    ∧ (Rail.mk st1 st2 [P, P] [s]).max_speed.length
        = (Rail.mk st1 st2 [P, P] [s]).points.length - 1
    ∧ ∀ fuel : Nat, simplifyProbe dist (Rail.mk st1 st2 [P, P] [s]) interval fuel = none := by
  refine ⟨by simp, by simp, fun fuel => ?_⟩
  show findPointAtDistance dist (constructGraph [P, P] [s]) fuel P interval 0 [] = none
  have hsucc : firstSuccessor (constructGraph [P, P] [s]) P = some P := by
    show firstSuccessor [(P, P, s)] P = some P
    unfold firstSuccessor
    rw [List.find?_cons_of_pos _ (by simp)]
    rfl
  exact findPointAtDistance_selfloop dist (constructGraph [P, P] [s]) P hsucc hd
    interval hpos fuel []

theorem c6_simplify_diverges_witness :
    simplifyProbe (fun _ _ => 0)
      (Rail.mk ⟨"A", ⟨0, 0⟩⟩ ⟨"B", ⟨0, 0⟩⟩ [⟨1, 2⟩, ⟨1, 2⟩] [40]) 1 5 = none :=
  (c6_simplify_diverges (fun _ _ => 0) ⟨"A", ⟨0, 0⟩⟩ ⟨"B", ⟨0, 0⟩⟩ ⟨1, 2⟩ 40 1
    rfl (by norm_num)).2.2 5

/-- Python `set.add` on a string set (modelled as a duplicate-free
list): insert only when absent. -/
def addString (l : List String) (s : String) : List String :=
  if s ∈ l then l else l ++ [s]

/-- Python `set.add` on a `set[Station]` (hash/eq by name). -/
def addStation (l : List Station) (st : Station) : List Station :=
  if l.any (fun s => stationEq s st) then l else l ++ [st]

/-- Python dict assignment `self.all_stops[stop] = subtrain`. -/
def dictSetStop (m : List (TrainStop × Train)) (k : TrainStop) (v : Train) :
    List (TrainStop × Train) :=
  if m.any (fun kv => kv.1 == k) then m.map (fun kv => if kv.1 == k then (k, v) else kv)
  else m ++ [(k, v)]

/-- The body of the `for station_name in self.stations_to_locate.copy()`
loop of `_locate_stations` (algorithm.py:77), driven over the copied
list; the `get_station_by_name` collaborator is the `oracle` (a located
station keeps the queried name, as in osm.py:54). -/
def locateLoop (oracle : String → Option Position) :
    List String → ScraperState → ScraperState
  | [], st => st
  | n :: rest, st =>
    let st' := match oracle n with
      | some pos => { st with stations_to_scrape := addStation st.stations_to_scrape ⟨n, pos⟩ }
      | none => { st with broken_stations := addString st.broken_stations n }
    locateLoop oracle rest { st' with stations_to_locate := st'.stations_to_locate.erase n }

/-- `ScraperState._locate_stations` (algorithm.py:75). -/
def locateStations (oracle : String → Option Position) (st : ScraperState) : ScraperState :=
  locateLoop oracle st.stations_to_locate st

/-- `ScraperState._handle_duplicate_subtrain` (algorithm.py:131) as a
state transformer: on a detected duplicate, blacklist both trains,
remove the matched train, purge its timed-stop index entries, and
return the merged winner. -/
def handleDuplicateSubtrain (st : ScraperState) (train : Train) : ScraperState × Train :=
  match findDuplicateSubtrain st.trains st.all_stops train with
  | none => (st, train)
  | some found =>
      ({ st with
          blacklisted_trains := st.blacklisted_trains ++ [train, found]
          trains := st.trains.erase found
          all_stops := st.all_stops.filter (fun kv => !(kv.2 == found)) },
       mergeWinner train found)

/-- The `filtered = [t for subtrain in train if (t := …)]` comprehension
of `_scrape_train` (a merged Train is always truthy, so nothing is
dropped): thread the state through the per-subtrain duplicate handling
and collect the results. -/
def scrapeTrainFold (subtrains : List Train) (st : ScraperState) :
    ScraperState × List Train :=
  subtrains.foldl (fun acc sub =>
    let r := handleDuplicateSubtrain acc.1 sub
    (r.1, acc.2 ++ [r.2])) (st, [])

/-- The per-stop body of `_scrape_train` (algorithm.py:163): index timed
stops, and queue unknown station names for location (the dummy Station
compares by name). -/
def processStop (t : Train) (st : ScraperState) (stop : TrainStop) : ScraperState :=
  let st1 := if stop.arrival_time.isSome || stop.departure_time.isSome
             then { st with all_stops := dictSetStop st.all_stops stop t } else st
  if !(st1.stations.any (fun s => s.name == stop.station_name))
     && !(st1.stations_to_scrape.any (fun s => s.name == stop.station_name))
     && !(st1.broken_stations.contains stop.station_name)
  then { st1 with stations_to_locate := addString st1.stations_to_locate stop.station_name }
  else st1

/-- `ScraperState._scrape_train` (algorithm.py:152), with the fetched
subtrain list supplied by the schedule collaborator. -/
def scrapeTrainStep (subtrains : List Train) (st : ScraperState) : ScraperState :=
  let r := scrapeTrainFold subtrains st
  let st2 := { r.1 with trains := r.1.trains ++ r.2 }
  let st3 := r.2.foldl (fun s t => t.stops.foldl (processStop t) s) st2
  { st3 with trains_to_scrape := st3.trains_to_scrape.dropLast }

/-- `ScraperState._scrape_station` (algorithm.py:100), with the chosen
station and fetched summaries supplied (the nearest-neighbor choice of
`_choose_station_to_scrape` is a float computation; the step relation
below only requires the chosen station to be a member of the
to-scrape set, which over-approximates the real choice). -/
def scrapeStationStep (station : Station) (summaries : List TrainSummary)
    (st : ScraperState) : ScraperState :=
  { st with
      trains_to_scrape := scrapeStationEnqueue st.banned_categories st.blacklisted_trains
        st.trains st.trains_to_scrape summaries
      stations_to_scrape := st.stations_to_scrape.filter (fun s => !(stationEq s station))
      stations := addStation st.stations station }

/-- The successful branch of `ScraperState.fixup` (algorithm.py:244):
add the manually located Station and clear the broken mark. -/
def fixupResolveStep (station : String) (pos : Position) (st : ScraperState) : ScraperState :=
  { st with
      stations := addStation st.stations ⟨station, pos⟩
      broken_stations := st.broken_stations.erase station }

/-- The orchestrator states reachable from a fresh state by scrape and
fixup steps, with all collaborator responses quantified. -/
inductive Reachable : ScraperState → Prop where
  | init (day : Nat) (start : String) : Reachable (initState day start)
  | locate (st : ScraperState) (oracle : String → Option Position) :
      Reachable st → st.stations_to_locate ≠ [] → Reachable (locateStations oracle st)
  | scrapeTrain (st : ScraperState) (subtrains : List Train) :
      Reachable st → st.stations_to_locate = [] → st.trains_to_scrape ≠ [] →
      Reachable (scrapeTrainStep subtrains st)
  | scrapeStation (st : ScraperState) (station : Station) (summaries : List TrainSummary) :
      Reachable st → st.stations_to_locate = [] → st.trains_to_scrape = [] →
      station ∈ st.stations_to_scrape → Reachable (scrapeStationStep station summaries st)
  | fixupResolve (st : ScraperState) (station : String) (pos : Position) :
      Reachable st → station ∈ st.broken_stations →
      Reachable (fixupResolveStep station pos st)
  | fixupDelete (st : ScraperState) (station confirm : String) (st' : ScraperState) :
      Reachable st → station ∈ st.broken_stations →
      deleteBrokenStation st station confirm = Except.ok st' → Reachable st'

/-- `a` and `b` share no element (checked by list scan). -/
def namesDisjoint (a b : List String) : Bool :=
  a.all (fun n => decide (n ∉ b))

/-- The four phase collections of claim C8, pairwise disjoint on
station identity (names). -/
def stationPhasesDisjoint (st : ScraperState) : Bool :=
  namesDisjoint st.stations_to_locate (st.stations_to_scrape.map (·.name))
  && namesDisjoint st.stations_to_locate (st.stations.map (·.name))
  && namesDisjoint st.stations_to_locate st.broken_stations
  && namesDisjoint (st.stations_to_scrape.map (·.name)) (st.stations.map (·.name))
  && namesDisjoint (st.stations_to_scrape.map (·.name)) st.broken_stations
  && namesDisjoint (st.stations.map (·.name)) st.broken_stations

theorem nodup_append_singleton {l : List String} {a : String}
    (hl : l.Nodup) (ha : a ∉ l) : (l ++ [a]).Nodup := by
  rw [List.nodup_append]
  exact ⟨hl, List.nodup_singleton a, fun x hx hxa => ha ((List.mem_singleton.mp hxa) ▸ hx)⟩

theorem addString_nodup {l : List String} {s : String} (h : l.Nodup) :
    (addString l s).Nodup := by
  unfold addString
  by_cases hs : s ∈ l
  · rw [if_pos hs]
    exact h
  · rw [if_neg hs]
    exact nodup_append_singleton h hs

theorem mem_addString {x s : String} {l : List String} (h : x ∈ addString l s) :
    x ∈ l ∨ x = s := by
  unfold addString at h
  by_cases hs : s ∈ l
  · rw [if_pos hs] at h
    exact Or.inl h
  · rw [if_neg hs] at h
    rcases List.mem_append.mp h with h2 | h2
    · exact Or.inl h2
    · exact Or.inr (List.mem_singleton.mp h2)

theorem addStation_names_nodup {l : List Station} {st : Station}
    (h : (l.map (·.name)).Nodup) : ((addStation l st).map (·.name)).Nodup := by
  unfold addStation
  by_cases hs : l.any (fun s => stationEq s st) = true
  · rw [if_pos hs]
    exact h
  · rw [if_neg hs]
    rw [List.map_append]
    refine nodup_append_singleton h ?_
    intro hc
    obtain ⟨s, hsmem, hsname⟩ := List.mem_map.mp hc
    apply hs
    rw [List.any_eq_true]
    exact ⟨s, hsmem, by unfold stationEq; rw [beq_iff_eq]; exact hsname⟩

theorem mem_addStation_names {x : String} {l : List Station} {st : Station}
    (h : x ∈ (addStation l st).map (·.name)) :
    x ∈ l.map (·.name) ∨ x = st.name := by
  unfold addStation at h
  by_cases hs : l.any (fun s => stationEq s st) = true
  · rw [if_pos hs] at h
    exact Or.inl h
  · rw [if_neg hs] at h
    rw [List.map_append] at h
    rcases List.mem_append.mp h with h2 | h2
    · exact Or.inl h2
    · exact Or.inr (List.mem_singleton.mp h2)

/-- The well-formedness invariant carried through the reachability
induction: the four phase collections are duplicate-free where needed
and pairwise disjoint on station names. -/
structure StateWF (st : ScraperState) : Prop where
  n1 : st.stations_to_locate.Nodup
  n4 : st.broken_stations.Nodup
  d12 : ∀ n ∈ st.stations_to_locate, n ∉ st.stations_to_scrape.map (·.name)
  d13 : ∀ n ∈ st.stations_to_locate, n ∉ st.stations.map (·.name)
  d14 : ∀ n ∈ st.stations_to_locate, n ∉ st.broken_stations
  d23 : ∀ n ∈ st.stations_to_scrape.map (·.name), n ∉ st.stations.map (·.name)
  d24 : ∀ n ∈ st.stations_to_scrape.map (·.name), n ∉ st.broken_stations
  d34 : ∀ n ∈ st.stations.map (·.name), n ∉ st.broken_stations

theorem initState_wf (day : Nat) (start : String) : StateWF (initState day start) := by
  constructor <;> simp [initState]

theorem locateLoop_wf (oracle : String → Option Position) :
    ∀ (names : List String) (st : ScraperState),
      StateWF st → names.Nodup → (∀ n ∈ names, n ∈ st.stations_to_locate) →
      StateWF (locateLoop oracle names st)
  | [], _, h, _, _ => h
  | n :: rest, st, h, hnd, hmem => by
    rw [locateLoop]
    have hn_loc : n ∈ st.stations_to_locate := hmem n (List.mem_cons_self n rest)
    have hrest_nd : rest.Nodup := (List.nodup_cons.mp hnd).2
    have hn_rest : n ∉ rest := (List.nodup_cons.mp hnd).1
    cases horacle : oracle n with
    | some pos =>
      dsimp only
      refine locateLoop_wf oracle rest _ ?_ hrest_nd ?_
      · constructor
        · exact h.n1.erase n
        · exact h.n4
        · intro m hm hc
          have hm' := List.mem_of_mem_erase hm
          have hne := ((h.n1.mem_erase_iff).mp hm).1
          rcases mem_addStation_names hc with hc2 | hc2
          · exact h.d12 m hm' hc2
          · exact hne hc2
        · intro m hm
          exact h.d13 m (List.mem_of_mem_erase hm)
        · intro m hm
          exact h.d14 m (List.mem_of_mem_erase hm)
        · intro m hm hc
          rcases mem_addStation_names hm with hm2 | hm2
          · exact h.d23 m hm2 hc
          · subst hm2
            exact h.d13 _ hn_loc hc
        · intro m hm hc
          rcases mem_addStation_names hm with hm2 | hm2
          · exact h.d24 m hm2 hc
          · subst hm2
            exact h.d14 _ hn_loc hc
        · exact h.d34
      · intro m hm
        have hne : m ≠ n := fun he => hn_rest (he ▸ hm)
        exact (List.mem_erase_of_ne hne).mpr (hmem m (List.mem_cons_of_mem n hm))
    | none =>
      dsimp only
      refine locateLoop_wf oracle rest _ ?_ hrest_nd ?_
      · constructor
        · exact h.n1.erase n
        · exact addString_nodup h.n4
        · intro m hm
          exact h.d12 m (List.mem_of_mem_erase hm)
        · intro m hm
          exact h.d13 m (List.mem_of_mem_erase hm)
        · intro m hm hc
          have hm' := List.mem_of_mem_erase hm
          have hne := ((h.n1.mem_erase_iff).mp hm).1
          rcases mem_addString hc with hc2 | hc2
          · exact h.d14 m hm' hc2
          · exact hne hc2
        · exact h.d23
        · intro m hm hc
          rcases mem_addString hc with hc2 | hc2
          · exact h.d24 m hm hc2
          · subst hc2
            exact h.d12 _ hn_loc hm
        · intro m hm hc
          rcases mem_addString hc with hc2 | hc2
          · exact h.d34 m hm hc2
          · subst hc2
            exact h.d13 _ hn_loc hm
      · intro m hm
        have hne : m ≠ n := fun he => hn_rest (he ▸ hm)
        exact (List.mem_erase_of_ne hne).mpr (hmem m (List.mem_cons_of_mem n hm))

theorem locateStations_wf (oracle : String → Option Position) (st : ScraperState)
    (h : StateWF st) : StateWF (locateStations oracle st) :=
  locateLoop_wf oracle st.stations_to_locate st h h.n1 (fun _ hn => hn)

theorem StateWF.mk_of (st' : ScraperState) {st : ScraperState} (h : StateWF st)
    (h1 : st'.stations_to_locate = st.stations_to_locate)
    (h2 : st'.stations_to_scrape = st.stations_to_scrape)
    (h3 : st'.stations = st.stations)
    (h4 : st'.broken_stations = st.broken_stations) : StateWF st' := by
  constructor
  · rw [h1]; exact h.n1
  · rw [h4]; exact h.n4
  · rw [h1, h2]; exact h.d12
  · rw [h1, h3]; exact h.d13
  · rw [h1, h4]; exact h.d14
  · rw [h2, h3]; exact h.d23
  · rw [h2, h4]; exact h.d24
  · rw [h3, h4]; exact h.d34

theorem handleDuplicate_fields (st : ScraperState) (t : Train) :
    (handleDuplicateSubtrain st t).1.stations_to_locate = st.stations_to_locate
    ∧ (handleDuplicateSubtrain st t).1.stations_to_scrape = st.stations_to_scrape
    ∧ (handleDuplicateSubtrain st t).1.stations = st.stations
    ∧ (handleDuplicateSubtrain st t).1.broken_stations = st.broken_stations := by
  unfold handleDuplicateSubtrain
  cases findDuplicateSubtrain st.trains st.all_stops t <;> exact ⟨rfl, rfl, rfl, rfl⟩

theorem scrapeTrainFold_fields :
    ∀ (subtrains : List Train) (acc : ScraperState × List Train),
      (subtrains.foldl (fun acc sub =>
        let r := handleDuplicateSubtrain acc.1 sub
        (r.1, acc.2 ++ [r.2])) acc).1.stations_to_locate = acc.1.stations_to_locate
      ∧ (subtrains.foldl (fun acc sub =>
        let r := handleDuplicateSubtrain acc.1 sub
        (r.1, acc.2 ++ [r.2])) acc).1.stations_to_scrape = acc.1.stations_to_scrape
      ∧ (subtrains.foldl (fun acc sub =>
        let r := handleDuplicateSubtrain acc.1 sub
        (r.1, acc.2 ++ [r.2])) acc).1.stations = acc.1.stations
      ∧ (subtrains.foldl (fun acc sub =>
        let r := handleDuplicateSubtrain acc.1 sub
        (r.1, acc.2 ++ [r.2])) acc).1.broken_stations = acc.1.broken_stations
  | [], acc => ⟨rfl, rfl, rfl, rfl⟩
  | sub :: rest, acc => by
    rw [List.foldl_cons]
    have hrec := scrapeTrainFold_fields rest
      ((handleDuplicateSubtrain acc.1 sub).1, acc.2 ++ [(handleDuplicateSubtrain acc.1 sub).2])
    have hh := handleDuplicate_fields acc.1 sub
    exact ⟨hrec.1.trans hh.1, hrec.2.1.trans hh.2.1, hrec.2.2.1.trans hh.2.2.1,
      hrec.2.2.2.trans hh.2.2.2⟩

theorem station_name_not_mem_of_any_false {l : List Station} {n : String}
    (h : l.any (fun s => s.name == n) = false) : n ∉ l.map (·.name) := by
  intro hc
  obtain ⟨s, hs, hname⟩ := List.mem_map.mp hc
  have h2 : l.any (fun s => s.name == n) = true := by
    rw [List.any_eq_true]
    exact ⟨s, hs, by rw [beq_iff_eq]; exact hname⟩
  rw [h] at h2
  exact Bool.false_ne_true h2

theorem bool_not_true {b : Bool} (h : (!b) = true) : b = false := by
  cases b
  · rfl
  · exact absurd h (by simp)

theorem string_not_mem_of_contains_false {l : List String} {n : String}
    (h : l.contains n = false) : n ∉ l := by
  intro hc
  have h2 : l.contains n = true := List.elem_eq_true_of_mem hc
  rw [h] at h2
  exact Bool.false_ne_true h2

theorem processStop_wf (t : Train) (st : ScraperState) (stop : TrainStop)
    (h : StateWF st) : StateWF (processStop t st stop) := by
  unfold processStop
  set st1 := if stop.arrival_time.isSome || stop.departure_time.isSome
             then { st with all_stops := dictSetStop st.all_stops stop t } else st with hst1
  have h1 : StateWF st1 := by
    rw [hst1]
    by_cases hc : (stop.arrival_time.isSome || stop.departure_time.isSome) = true
    · rw [if_pos hc]
      exact StateWF.mk_of _ h rfl rfl rfl rfl
    · rw [if_neg hc]
      exact h
  by_cases hc : (!(st1.stations.any (fun s => s.name == stop.station_name))
     && !(st1.stations_to_scrape.any (fun s => s.name == stop.station_name))
     && !(st1.broken_stations.contains stop.station_name)) = true
  · rw [if_pos hc]
    obtain ⟨hc1, hc2, hc3⟩ : (!(st1.stations.any (fun s => s.name == stop.station_name))) = true
        ∧ (!(st1.stations_to_scrape.any (fun s => s.name == stop.station_name))) = true
        ∧ (!(st1.broken_stations.contains stop.station_name)) = true := by
      simp only [Bool.and_eq_true] at hc
      exact ⟨hc.1.1, hc.1.2, hc.2⟩
    have hns : stop.station_name ∉ st1.stations.map (·.name) :=
      station_name_not_mem_of_any_false (bool_not_true hc1)
    have hnsc : stop.station_name ∉ st1.stations_to_scrape.map (·.name) :=
      station_name_not_mem_of_any_false (bool_not_true hc2)
    have hnb : stop.station_name ∉ st1.broken_stations :=
      string_not_mem_of_contains_false (bool_not_true hc3)
    constructor
    · exact addString_nodup h1.n1
    · exact h1.n4
    · intro m hm
      rcases mem_addString hm with hm2 | hm2
      · exact h1.d12 m hm2
      · subst hm2; exact hnsc
    · intro m hm
      rcases mem_addString hm with hm2 | hm2
      · exact h1.d13 m hm2
      · subst hm2; exact hns
    · intro m hm
      rcases mem_addString hm with hm2 | hm2
      · exact h1.d14 m hm2
      · subst hm2; exact hnb
    · exact h1.d23
    · exact h1.d24
    · exact h1.d34
  · rw [if_neg hc]
    exact h1

theorem stopsFold_wf (t : Train) :
    ∀ (stops : List TrainStop) (st : ScraperState),
      StateWF st → StateWF (stops.foldl (processStop t) st)
  | [], _, h => h
  | stop :: rest, st, h => by
    rw [List.foldl_cons]
    exact stopsFold_wf t rest _ (processStop_wf t st stop h)

theorem trainsFold_wf :
    ∀ (ts : List Train) (st : ScraperState),
      StateWF st → StateWF (ts.foldl (fun s t => t.stops.foldl (processStop t) s) st)
  | [], _, h => h
  | t :: rest, st, h => by
    rw [List.foldl_cons]
    exact trainsFold_wf rest _ (stopsFold_wf t t.stops st h)

theorem scrapeTrainStep_wf (subtrains : List Train) (st : ScraperState)
    (h : StateWF st) : StateWF (scrapeTrainStep subtrains st) := by
  have hfields := scrapeTrainFold_fields subtrains (st, [])
  have h1 : StateWF (scrapeTrainFold subtrains st).1 :=
    StateWF.mk_of _ h hfields.1 hfields.2.1 hfields.2.2.1 hfields.2.2.2
  have h2 : StateWF { (scrapeTrainFold subtrains st).1 with
      trains := (scrapeTrainFold subtrains st).1.trains ++ (scrapeTrainFold subtrains st).2 } :=
    StateWF.mk_of _ h1 rfl rfl rfl rfl
  have h3 := trainsFold_wf (scrapeTrainFold subtrains st).2 _ h2
  exact StateWF.mk_of _ h3 rfl rfl rfl rfl

theorem scrapeStationStep_wf (station : Station) (summaries : List TrainSummary)
    (st : ScraperState) (hmem : station ∈ st.stations_to_scrape)
    (h : StateWF st) : StateWF (scrapeStationStep station summaries st) := by
  have hname : station.name ∈ st.stations_to_scrape.map (·.name) :=
    List.mem_map_of_mem _ hmem
  have hfilter_sub : ∀ m, m ∈ (st.stations_to_scrape.filter
      (fun s => !(stationEq s station))).map (·.name) →
      m ∈ st.stations_to_scrape.map (·.name) := by
    intro m hm
    obtain ⟨s, hs, hsn⟩ := List.mem_map.mp hm
    exact List.mem_map.mpr ⟨s, (List.mem_filter.mp hs).1, hsn⟩
  have hfilter_ne : ∀ m, m ∈ (st.stations_to_scrape.filter
      (fun s => !(stationEq s station))).map (·.name) → m ≠ station.name := by
    intro m hm he
    obtain ⟨s, hs, hsn⟩ := List.mem_map.mp hm
    have hp := (List.mem_filter.mp hs).2
    have : stationEq s station = false := bool_not_true hp
    unfold stationEq at this
    rw [hsn, he] at this
    simp at this
  constructor
  · exact h.n1
  · exact h.n4
  · intro m hm hc
    exact h.d12 m hm (hfilter_sub m hc)
  · intro m hm hc
    rcases mem_addStation_names hc with hc2 | hc2
    · exact h.d13 m hm hc2
    · subst hc2
      exact h.d12 _ hm hname
  · exact h.d14
  · intro m hm hc
    rcases mem_addStation_names hc with hc2 | hc2
    · exact h.d23 m (hfilter_sub m hm) hc2
    · exact hfilter_ne m hm hc2
  · intro m hm
    exact h.d24 m (hfilter_sub m hm)
  · intro m hm
    rcases mem_addStation_names hm with hm2 | hm2
    · exact h.d34 m hm2
    · subst hm2
      exact h.d24 _ hname

theorem fixupResolveStep_wf (station : String) (pos : Position) (st : ScraperState)
    (hmem : station ∈ st.broken_stations) (h : StateWF st) :
    StateWF (fixupResolveStep station pos st) := by
  constructor
  · exact h.n1
  · exact h.n4.erase station
  · exact h.d12
  · intro m hm hc
    rcases mem_addStation_names hc with hc2 | hc2
    · exact h.d13 m hm hc2
    · subst hc2
      exact h.d14 _ hm hmem
  · intro m hm hc
    exact h.d14 m hm (List.mem_of_mem_erase hc)
  · intro m hm hc
    rcases mem_addStation_names hc with hc2 | hc2
    · exact h.d23 m hm hc2
    · subst hc2
      exact h.d24 _ hm hmem
  · intro m hm hc
    exact h.d24 m hm (List.mem_of_mem_erase hc)
  · intro m hm hc
    rcases mem_addStation_names hm with hm2 | hm2
    · exact h.d34 m hm2 (List.mem_of_mem_erase hc)
    · subst hm2
      exact (((h.n4.mem_erase_iff).mp hc).1 rfl)

theorem foldl_erase_mem :
    ∀ (l bs : List String) (n : String),
      n ∈ l.foldl (fun b s => b.erase s) bs → n ∈ bs
  | [], _, _, h => h
  | s :: rest, bs, n, h => by
    rw [List.foldl_cons] at h
    exact List.mem_of_mem_erase (foldl_erase_mem rest (bs.erase s) n h)

theorem foldl_erase_nodup :
    ∀ (l bs : List String), bs.Nodup → (l.foldl (fun b s => b.erase s) bs).Nodup
  | [], _, h => h
  | s :: rest, bs, h => by
    rw [List.foldl_cons]
    exact foldl_erase_nodup rest (bs.erase s) (h.erase s)

theorem deleteBrokenStation_ok {st : ScraperState} {name confirm : String}
    {st' : ScraperState} (h : deleteBrokenStation st name confirm = Except.ok st') :
    st'.stations_to_locate = st.stations_to_locate
    ∧ st'.stations_to_scrape = st.stations_to_scrape
    ∧ st'.stations = st.stations
    ∧ (∀ n ∈ st'.broken_stations, n ∈ st.broken_stations)
    ∧ (st.broken_stations.Nodup → st'.broken_stations.Nodup) := by
  unfold deleteBrokenStation at h
  by_cases hc : pyLower (pyStrip confirm) ≠ "y"
  · rw [if_pos hc] at h
    exact absurd h (by simp)
  · rw [if_neg hc] at h
    injection h with h2
    subst h2
    refine ⟨rfl, rfl, rfl, ?_, ?_⟩
    · intro n hn
      exact foldl_erase_mem _ _ n hn
    · intro hnd
      exact foldl_erase_nodup _ _ hnd

theorem reachable_wf (st : ScraperState) (h : Reachable st) : StateWF st := by
  induction h with
  | init day start => exact initState_wf day start
  | locate st oracle _ _ ih => exact locateStations_wf oracle st ih
  | scrapeTrain st subtrains _ _ _ ih => exact scrapeTrainStep_wf subtrains st ih
  | scrapeStation st station summaries _ _ _ hmem ih =>
      exact scrapeStationStep_wf station summaries st hmem ih
  | fixupResolve st station pos _ hmem ih => exact fixupResolveStep_wf station pos st hmem ih
  | fixupDelete st station confirm st' _ hmem hok ih =>
      obtain ⟨h1, h2, h3, h4, h5⟩ := deleteBrokenStation_ok hok
      constructor
      · rw [h1]; exact ih.n1
      · exact h5 ih.n4
      · rw [h1, h2]; exact ih.d12
      · rw [h1, h3]; exact ih.d13
      · rw [h1]
        intro m hm hc
        exact ih.d14 m hm (h4 m hc)
      · rw [h2, h3]; exact ih.d23
      · rw [h2]
        intro m hm hc
        exact ih.d24 m hm (h4 m hc)
      · rw [h3]
        intro m hm hc
        exact ih.d34 m hm (h4 m hc)

/-- Claim C8: in every orchestrator state reachable from a fresh state
by scrape and fixup steps (over arbitrary collaborator responses), a
station identity occupies at most one of the four phase collections:
to-locate names, to-scrape stations, scraped stations, and broken
names — the six pairwise name intersections are empty. -/
theorem c8_station_phase_partition (st : ScraperState) (h : Reachable st) :
    stationPhasesDisjoint st = true := by
  have hwf := reachable_wf st h
  unfold stationPhasesDisjoint namesDisjoint
  simp only [Bool.and_eq_true, List.all_eq_true, decide_eq_true_eq]
  exact ⟨⟨⟨⟨⟨hwf.d12, hwf.d13⟩, hwf.d14⟩, hwf.d23⟩, hwf.d24⟩, hwf.d34⟩

theorem c8_station_phase_partition_witness :
    stationPhasesDisjoint (locateStations (fun _ => some ⟨1, 2⟩) (initState 0 "Alpha")) = true :=
  c8_station_phase_partition _
    (Reachable.locate _ _ (Reachable.init 0 "Alpha") (by simp [initState]))

/-- `_MAX_ANGLE_BETWEEN_RAILS = 75` (osm.py:21, in degrees). -/
def maxAngleBetweenRails : ℚ := 75

/-- `_STATION_SEARCH_CUTOFF = 20_000` (osm.py:17, in meters). -/
def stationSearchCutoff : ℚ := 20000

/-- `_STATION_HITBOX_RADIUS = 150` (osm.py:18, in meters). -/
def stationHitboxRadius : ℚ := 150

/-- The Rail Finder's search state (`RailFinder`, osm.py:77): priority
queue entries `(distance, node, in_station_radius)`, the best-distance
and predecessor dicts, and the visited set. -/
structure RFState where
  pq : List (ℚ × Int × Bool)
  distances : List (Int × ℚ)
  previous : List (Int × Int)
  visited : List Int

/-- Association-list lookup for the integer-keyed dicts. -/
def dictGetInt {β : Type} (m : List (Int × β)) (k : Int) : Option β :=
  (m.find? (fun kv => decide (kv.1 = k))).map (·.2)

/-- Python dict assignment: overwrite in place, else append. -/
def dictSetInt {β : Type} : List (Int × β) → Int → β → List (Int × β)
  | [], k, v => [(k, v)]
  | kv :: rest, k, v => if kv.1 = k then (k, v) :: rest else kv :: dictSetInt rest k v

theorem dictGetInt_set_self {β : Type} (k : Int) (v : β) :
    ∀ m : List (Int × β), dictGetInt (dictSetInt m k v) k = some v
  | [] => by simp [dictSetInt, dictGetInt, List.find?]
  | kv :: rest => by
    rw [dictSetInt]
    by_cases hk : kv.1 = k
    · rw [if_pos hk]
      simp [dictGetInt, List.find?]
    · rw [if_neg hk]
      unfold dictGetInt
      rw [List.find?_cons_of_neg _ (by simp [hk])]
      exact dictGetInt_set_self k v rest

theorem dictGetInt_set_other {β : Type} (k k' : Int) (v : β) (h : k' ≠ k) :
    ∀ m : List (Int × β), dictGetInt (dictSetInt m k v) k' = dictGetInt m k'
  | [] => by
    unfold dictSetInt dictGetInt
    rw [List.find?_cons_of_neg _ (by simp [Ne.symm h])]
  | kv :: rest => by
    rw [dictSetInt]
    by_cases hk : kv.1 = k
    · rw [if_pos hk]
      unfold dictGetInt
      rw [List.find?_cons_of_neg _ (by simp [Ne.symm h]),
          List.find?_cons_of_neg _ (by simp [hk, Ne.symm h])]
    · rw [if_neg hk]
      unfold dictGetInt
      by_cases hk2 : kv.1 = k'
      · rw [List.find?_cons_of_pos _ (by simp [hk2]), List.find?_cons_of_pos _ (by simp [hk2])]
      · rw [List.find?_cons_of_neg _ (by simp [hk2]), List.find?_cons_of_neg _ (by simp [hk2])]
        exact dictGetInt_set_other k k' v h rest

theorem dictGetInt_mem {β : Type} {k : Int} {v : β} :
    ∀ {m : List (Int × β)}, dictGetInt m k = some v → (k, v) ∈ m
  | [], h => by simp [dictGetInt, List.find?] at h
  | kv :: rest, h => by
    unfold dictGetInt at h
    by_cases hk : kv.1 = k
    · rw [List.find?_cons_of_pos _ (by simp [hk])] at h
      have h2 : kv.2 = v := by simpa using h
      exact List.mem_cons.mpr (Or.inl (by rw [← hk, ← h2]))
    · rw [List.find?_cons_of_neg _ (by simp [hk])] at h
      exact List.mem_cons_of_mem _ (dictGetInt_mem h)

theorem dictGetInt_of_mem_nodup {β : Type} {k : Int} {v : β} :
    ∀ {m : List (Int × β)}, (m.map (·.1)).Nodup → (k, v) ∈ m → dictGetInt m k = some v
  | [], _, h => absurd h (List.not_mem_nil _)
  | kv :: rest, hnd, h => by
    rcases List.mem_cons.mp h with h2 | h2
    · subst h2
      unfold dictGetInt
      rw [List.find?_cons_of_pos _ (by simp)]
      rfl
    · have hk : kv.1 ≠ k := by
        intro he
        have h3 : k ∈ rest.map (·.1) := List.mem_map.mpr ⟨(k, v), h2, rfl⟩
        rw [List.map_cons, List.nodup_cons] at hnd
        exact hnd.1 (he ▸ h3)
      unfold dictGetInt
      rw [List.find?_cons_of_neg _ (by simp [hk])]
      exact dictGetInt_of_mem_nodup (by
        rw [List.map_cons, List.nodup_cons] at hnd
        exact hnd.2) h2

/-- The Python heap order on `(distance, node, flag)` tuples
(lexicographic; `False < True`). -/
def entryLe (a b : ℚ × Int × Bool) : Prop :=
  a.1 < b.1 ∨ (a.1 = b.1 ∧ (a.2.1 < b.2.1 ∨ (a.2.1 = b.2.1 ∧ (a.2.2 = false ∨ b.2.2 = true))))

instance : DecidablePred (fun ab : (ℚ × Int × Bool) × (ℚ × Int × Bool) => entryLe ab.1 ab.2) :=
  fun _ => by unfold entryLe; infer_instance

instance (a b : ℚ × Int × Bool) : Decidable (entryLe a b) := by
  unfold entryLe; infer_instance

/-- `heappop`: remove a minimal entry (the heap is a multiset with a
minimum-extraction operation). -/
def popMin : List (ℚ × Int × Bool) → Option ((ℚ × Int × Bool) × List (ℚ × Int × Bool))
  | [] => none
  | x :: xs =>
    match popMin xs with
    | none => some (x, [])
    | some (m, rest) => if entryLe x m then some (x, xs) else some (m, x :: rest)

theorem entryLe_dist {a b : ℚ × Int × Bool} (h : entryLe a b) : a.1 ≤ b.1 := by
  rcases h with h | ⟨h, _⟩
  · exact le_of_lt h
  · exact le_of_eq h

theorem not_entryLe_dist {a b : ℚ × Int × Bool} (h : ¬ entryLe a b) : b.1 ≤ a.1 := by
  unfold entryLe at h
  push_neg at h
  exact h.1

theorem popMin_mem : ∀ {l : List (ℚ × Int × Bool)} {m rest},
    popMin l = some (m, rest) → m ∈ l
  | [], _, _, h => by simp [popMin] at h
  | x :: xs, m, rest, h => by
    rw [popMin] at h
    cases hxs : popMin xs with
    | none =>
      rw [hxs] at h
      dsimp only at h
      injection h with h2
      have hx : x = m := congrArg Prod.fst h2
      rw [← hx]
      exact List.mem_cons_self x xs
    | some p =>
      rw [hxs] at h
      dsimp only at h
      by_cases hle : entryLe x p.1
      · rw [if_pos hle] at h
        injection h with h2
        have hx : x = m := congrArg Prod.fst h2
        rw [← hx]
        exact List.mem_cons_self x xs
      · rw [if_neg hle] at h
        injection h with h2
        have hm : p.1 = m := congrArg Prod.fst h2
        exact List.mem_cons_of_mem x (hm ▸ popMin_mem (l := xs) (by rw [hxs]))

theorem popMin_cover : ∀ {l : List (ℚ × Int × Bool)} {m rest},
    popMin l = some (m, rest) → ∀ e ∈ l, e = m ∨ e ∈ rest
  | [], _, _, h => by simp [popMin] at h
  | x :: xs, m, rest, h => by
    rw [popMin] at h
    cases hxs : popMin xs with
    | none =>
      rw [hxs] at h
      dsimp only at h
      injection h with h2
      have hx : x = m := congrArg Prod.fst h2
      have hxs_nil : xs = [] := by
        cases xs with
        | nil => rfl
        | cons y ys =>
          rw [popMin] at hxs
          cases h3 : popMin ys <;> rw [h3] at hxs <;> dsimp only at hxs
          · exact absurd hxs (by simp)
          · split at hxs <;> exact absurd hxs (by simp)
      intro e he
      rw [hxs_nil] at he
      exact Or.inl ((List.mem_singleton.mp he).trans hx)
    | some p =>
      rw [hxs] at h
      dsimp only at h
      by_cases hle : entryLe x p.1
      · rw [if_pos hle] at h
        injection h with h2
        have hx : x = m := congrArg Prod.fst h2
        have hrest : xs = rest := congrArg Prod.snd h2
        intro e he
        rcases List.mem_cons.mp he with he2 | he2
        · exact Or.inl (he2.trans hx)
        · exact Or.inr (hrest ▸ he2)
      · rw [if_neg hle] at h
        injection h with h2
        have hm : p.1 = m := congrArg Prod.fst h2
        have hrest : x :: p.2 = rest := congrArg Prod.snd h2
        intro e he
        rcases List.mem_cons.mp he with he2 | he2
        · exact Or.inr (hrest ▸ (he2 ▸ List.mem_cons_self x p.2))
        · rcases popMin_cover (l := xs) (by rw [hxs]) e he2 with h3 | h3
          · exact Or.inl (h3.trans hm)
          · exact Or.inr (hrest ▸ List.mem_cons_of_mem x h3)

theorem popMin_subset : ∀ {l : List (ℚ × Int × Bool)} {m rest},
    popMin l = some (m, rest) → ∀ e ∈ rest, e ∈ l
  | [], _, _, h => by simp [popMin] at h
  | x :: xs, m, rest, h => by
    rw [popMin] at h
    cases hxs : popMin xs with
    | none =>
      rw [hxs] at h
      dsimp only at h
      injection h with h2
      have hrest : ([] : List (ℚ × Int × Bool)) = rest := congrArg Prod.snd h2
      intro e he
      rw [← hrest] at he
      exact absurd he (List.not_mem_nil e)
    | some p =>
      rw [hxs] at h
      dsimp only at h
      by_cases hle : entryLe x p.1
      · rw [if_pos hle] at h
        injection h with h2
        have hrest : xs = rest := congrArg Prod.snd h2
        intro e he
        exact List.mem_cons_of_mem x (hrest ▸ he)
      · rw [if_neg hle] at h
        injection h with h2
        have hrest : x :: p.2 = rest := congrArg Prod.snd h2
        intro e he
        rw [← hrest] at he
        rcases List.mem_cons.mp he with he2 | he2
        · exact he2 ▸ List.mem_cons_self x xs
        · exact List.mem_cons_of_mem x (popMin_subset (l := xs) (by rw [hxs]) e he2)

theorem popMin_min : ∀ {l : List (ℚ × Int × Bool)} {m rest},
    popMin l = some (m, rest) → ∀ e ∈ rest, m.1 ≤ e.1
  | [], _, _, h => by simp [popMin] at h
  | x :: xs, m, rest, h => by
    rw [popMin] at h
    cases hxs : popMin xs with
    | none =>
      rw [hxs] at h
      dsimp only at h
      injection h with h2
      have hrest : ([] : List (ℚ × Int × Bool)) = rest := congrArg Prod.snd h2
      intro e he
      rw [← hrest] at he
      exact absurd he (List.not_mem_nil e)
    | some p =>
      rw [hxs] at h
      dsimp only at h
      by_cases hle : entryLe x p.1
      · rw [if_pos hle] at h
        injection h with h2
        have hx : x = m := congrArg Prod.fst h2
        have hrest : xs = rest := congrArg Prod.snd h2
        intro e he
        rw [← hrest] at he
        rcases popMin_cover (l := xs) (by rw [hxs]) e he with h3 | h3
        · rw [← hx, h3]
          exact entryLe_dist hle
        · calc m.1 = x.1 := (congrArg Prod.fst hx).symm
            _ ≤ p.1.1 := entryLe_dist hle
            _ ≤ e.1 := popMin_min (l := xs) (by rw [hxs]) e h3
      · rw [if_neg hle] at h
        injection h with h2
        have hm : p.1 = m := congrArg Prod.fst h2
        have hrest : x :: p.2 = rest := congrArg Prod.snd h2
        intro e he
        rw [← hrest] at he
        rcases List.mem_cons.mp he with he2 | he2
        · rw [he2, ← hm]
          exact not_entryLe_dist hle
        · rw [← hm]
          exact popMin_min (l := xs) (by rw [hxs]) e he2

/-- The body of the `for neighbor in self._get_neighbors(current_node)`
loop of `RailFinder._process_next_node` (osm.py:153): turn-angle
pruning over three consecutive real nodes, distance relaxation with the
search cutoff, and the foreign-station-radius rule.  `angleAt p c n` is
`_calculate_angle` applied to the three node positions, `edgeLen` the
minimum `length` over the parallel edges (`_get_edge_data`), and
`checkRadius` the `_check_in_station_radius` line sampling — all float
collaborator computations passed in as parameters.  (`previous
[current_node]` is a plain dict access in Python; the `.getD 0` default
is unreachable because every queued node has a predecessor.) -/
def relaxOne (angleAt : Int → Int → Int → ℚ) (edgeLen : Int → Int → ℚ)
    (checkRadius : Int → Int → Bool) (current : Int) (currentDist : ℚ) (inRadius : Bool)
    (s : RFState) (neighbor : Int) : RFState :=
  if 0 < current ∧ 0 < neighbor ∧ 0 < (dictGetInt s.previous current).getD 0
     ∧ 180 - angleAt ((dictGetInt s.previous current).getD 0) current neighbor
         > maxAngleBetweenRails
  then s
  else if (match dictGetInt s.distances neighbor with
           | some d => decide (currentDist + edgeLen current neighbor ≥ d)
           | none => false) = true
          ∨ currentDist + edgeLen current neighbor > stationSearchCutoff
  then s
  else if ¬ (currentDist + edgeLen current neighbor ≥ 2 * stationHitboxRadius
             ∧ checkRadius current neighbor = true) ∧ inRadius = true
  then s
  else
    { s with
        distances := dictSetInt s.distances neighbor
          (currentDist + edgeLen current neighbor)
        previous := dictSetInt s.previous neighbor current
        pq := s.pq ++ [(currentDist + edgeLen current neighbor, neighbor,
          decide (currentDist + edgeLen current neighbor ≥ 2 * stationHitboxRadius)
            && checkRadius current neighbor)] }

/-- `RailFinder._process_next_node` (osm.py:149): pop a minimal heap
entry, skip it if already finalized, otherwise relax all its neighbors
and mark it visited.  `neighbors` is `_get_neighbors` (empty for
virtual nodes). -/
def processNextNode (angleAt : Int → Int → Int → ℚ) (edgeLen : Int → Int → ℚ)
    (checkRadius : Int → Int → Bool) (neighbors : Int → List Int)
    (s : RFState) : RFState :=
  match popMin s.pq with
  | none => s
  | some (entry, rest) =>
    if entry.2.1 ∈ s.visited then { s with pq := rest }
    else
      let s1 := (neighbors entry.2.1).foldl
        (relaxOne angleAt edgeLen checkRadius entry.2.1 entry.1 entry.2.2)
        { s with pq := rest }
      { s1 with visited := s1.visited ++ [entry.2.1] }

/-- The `while self.priority_queue: self._process_next_node()` loop of
`RailFinder.find_rails` (osm.py:215), with a fuel bound. -/
def searchLoop (angleAt : Int → Int → Int → ℚ) (edgeLen : Int → Int → ℚ)
    (checkRadius : Int → Int → Bool) (neighbors : Int → List Int) :
    Nat → RFState → RFState
  | 0, s => s
  | fuel + 1, s =>
    if s.pq = [] then s
    else searchLoop angleAt edgeLen checkRadius neighbors fuel
      (processNextNode angleAt edgeLen checkRadius neighbors s)

/-- `RailFinder._init_collections` (osm.py:99): seed the queue with the
graph nodes inside the starting station's hitbox; `seeds` pairs each
such node id with its (already multiplied) distance. -/
def initCollections (seeds : List (Int × ℚ)) (startId : Int) : RFState :=
  { pq := seeds.map (fun sd => (sd.2, sd.1, false))
    distances := seeds.foldl (fun m sd => dictSetInt m sd.1 sd.2) []
    previous := seeds.foldl (fun m sd => dictSetInt m sd.1 startId) []
    visited := [] }

/-- The predecessor walk of `RailFinder._gather_rails` (osm.py:184):
follow `previous` from a reached station's augmented id back to the
starting station's id, collecting the traversed real (positive) node
ids; `none` when the walk does not complete within `fuel` steps or a
predecessor is missing. -/
def gatherPath (previous : List (Int × Int)) (startId : Int) :
    Nat → Int → List Int → Option (List Int)
  | 0, _, _ => none
  | fuel + 1, current, acc =>
    if current = startId then some acc
    else match dictGetInt previous current with
      | none => none
      | some prev =>
        gatherPath previous startId fuel prev (if 0 < current then acc ++ [current] else acc)

/-- Adjacent elements of the list are linked by the predecessor map. -/
def ChainLinked (previous : List (Int × Int)) : List Int → Prop
  | a :: b :: rest => dictGetInt previous a = some b ∧ ChainLinked previous (b :: rest)
  | _ => True

/-- The invariant maintained while the neighbors of `current` (a popped,
not-yet-visited node at distance `currentDist`) are being relaxed. -/
structure RelaxInv (angleAt : Int → Int → Int → ℚ) (startId current : Int)
    (currentDist : ℚ) (s : RFState) : Prop where
  entry_dist : ∀ e ∈ s.pq, ∃ dn, dictGetInt s.distances e.2.1 = some dn ∧ dn ≤ e.1
  entry_nz : ∀ e ∈ s.pq, e.2.1 ≠ 0
  pq_lb : ∀ e ∈ s.pq, currentDist ≤ e.1
  visited_dist : ∀ u ∈ s.visited, ∃ du, dictGetInt s.distances u = some du
  visited_min : ∀ u ∈ s.visited, ∀ du, dictGetInt s.distances u = some du → du ≤ currentDist
  cur_dist : ∀ dc, dictGetInt s.distances current = some dc → dc ≤ currentDist
  cur_dist_some : ∃ dc, dictGetInt s.distances current = some dc
  cur_notvis : current ∉ s.visited
  prev_vc : ∀ v p, dictGetInt s.previous v = some p → 0 < p → p ∈ s.visited ∨ p = current
  prev_shape : ∀ v p, dictGetInt s.previous v = some p → p = startId ∨ 0 < p
  angle_ok : ∀ v p q, dictGetInt s.previous v = some p → dictGetInt s.previous p = some q →
      0 < v → 0 < p → 0 < q → ¬ (180 - angleAt q p v > maxAngleBetweenRails)

theorem relaxOne_inv (angleAt : Int → Int → Int → ℚ) (edgeLen : Int → Int → ℚ)
    (checkRadius : Int → Int → Bool) {startId current : Int} {currentDist : ℚ}
    {inRadius : Bool} {s : RFState} {neighbor : Int}
    (hlen : ∀ a b, 0 ≤ edgeLen a b)
    (hcur : 0 < current) (hnbz : neighbor ≠ 0)
    (hinv : RelaxInv angleAt startId current currentDist s) :
    RelaxInv angleAt startId current currentDist
      (relaxOne angleAt edgeLen checkRadius current currentDist inRadius s neighbor) := by
  unfold relaxOne
  by_cases h1 : (0 < current ∧ 0 < neighbor ∧ 0 < (dictGetInt s.previous current).getD 0
      ∧ 180 - angleAt ((dictGetInt s.previous current).getD 0) current neighbor
          > maxAngleBetweenRails)
  · rw [if_pos h1]
    exact hinv
  · rw [if_neg h1]
    by_cases h2 : ((match dictGetInt s.distances neighbor with
           | some d => decide (currentDist + edgeLen current neighbor ≥ d)
           | none => false) = true
          ∨ currentDist + edgeLen current neighbor > stationSearchCutoff)
    · rw [if_pos h2]
      exact hinv
    · rw [if_neg h2]
      by_cases h3 : (¬ (currentDist + edgeLen current neighbor ≥ 2 * stationHitboxRadius
             ∧ checkRadius current neighbor = true) ∧ inRadius = true)
      · rw [if_pos h3]
        exact hinv
      · rw [if_neg h3]
        have himpr : ∀ d, dictGetInt s.distances neighbor = some d →
            currentDist + edgeLen current neighbor < d := by
          intro d hd
          by_contra hge
          apply h2
          left
          rw [hd]
          simp only [decide_eq_true_eq]
          exact le_of_not_lt hge
        have hnvis : neighbor ∉ s.visited := by
          intro hv
          obtain ⟨du, hdu⟩ := hinv.visited_dist neighbor hv
          have ha := himpr du hdu
          have hb := hinv.visited_min neighbor hv du hdu
          have hc := hlen current neighbor
          linarith
        have hncur : neighbor ≠ current := by
          intro he
          obtain ⟨dc, hdc⟩ := hinv.cur_dist_some
          have ha := hinv.cur_dist dc hdc
          have hb := himpr dc (he ▸ hdc)
          have hc := hlen current neighbor
          linarith
        constructor
        · intro e he
          rcases List.mem_append.mp he with he2 | he2
          · obtain ⟨dn, hdn, hle⟩ := hinv.entry_dist e he2
            by_cases hen : e.2.1 = neighbor
            · refine ⟨currentDist + edgeLen current neighbor, ?_, ?_⟩
              · rw [hen]
                exact dictGetInt_set_self _ _ _
              · have := himpr dn (hen ▸ hdn)
                linarith
            · exact ⟨dn, by rw [dictGetInt_set_other _ _ _ hen]; exact hdn, hle⟩
          · rw [List.mem_singleton.mp he2]
            exact ⟨currentDist + edgeLen current neighbor, dictGetInt_set_self _ _ _, le_refl _⟩
        · intro e he
          rcases List.mem_append.mp he with he2 | he2
          · exact hinv.entry_nz e he2
          · rw [List.mem_singleton.mp he2]
            exact hnbz
        · intro e he
          rcases List.mem_append.mp he with he2 | he2
          · exact hinv.pq_lb e he2
          · rw [List.mem_singleton.mp he2]
            have := hlen current neighbor
            simp only
            linarith
        · intro u hu
          obtain ⟨du, hdu⟩ := hinv.visited_dist u hu
          have hun : u ≠ neighbor := fun he => hnvis (he ▸ hu)
          exact ⟨du, by rw [dictGetInt_set_other _ _ _ hun]; exact hdu⟩
        · intro u hu du hdu
          have hun : u ≠ neighbor := fun he => hnvis (he ▸ hu)
          rw [dictGetInt_set_other _ _ _ hun] at hdu
          exact hinv.visited_min u hu du hdu
        · intro dc hdc
          rw [dictGetInt_set_other _ _ _ (Ne.symm hncur)] at hdc
          exact hinv.cur_dist dc hdc
        · obtain ⟨dc, hdc⟩ := hinv.cur_dist_some
          exact ⟨dc, by rw [dictGetInt_set_other _ _ _ (Ne.symm hncur)]; exact hdc⟩
        · exact hinv.cur_notvis
        · intro v p hp hppos
          by_cases hv : v = neighbor
          · rw [hv, dictGetInt_set_self] at hp
            injection hp with hp2
            exact Or.inr hp2.symm
          · rw [dictGetInt_set_other _ _ _ hv] at hp
            exact hinv.prev_vc v p hp hppos
        · intro v p hp
          by_cases hv : v = neighbor
          · rw [hv, dictGetInt_set_self] at hp
            injection hp with hp2
            exact Or.inr (hp2 ▸ hcur)
          · rw [dictGetInt_set_other _ _ _ hv] at hp
            exact hinv.prev_shape v p hp
        · intro v p q hvp hpq hv hp hq
          by_cases hvn : v = neighbor
          · rw [hvn, dictGetInt_set_self] at hvp
            injection hvp with hvp2
            subst hvp2
            rw [dictGetInt_set_other _ _ _ (Ne.symm hncur)] at hpq
            intro hsharp
            apply h1
            refine ⟨hcur, hvn ▸ hv, ?_, ?_⟩
            · rw [hpq]
              exact hq
            · rw [hpq]
              show 180 - angleAt q current neighbor > maxAngleBetweenRails
              rw [← hvn]
              exact hsharp
          · rw [dictGetInt_set_other _ _ _ hvn] at hvp
            by_cases hpn : p = neighbor
            · exfalso
              rcases hinv.prev_vc v p hvp hp with hin | heq
              · exact hnvis (hpn ▸ hin)
              · exact hncur (hpn ▸ heq)
            · rw [dictGetInt_set_other _ _ _ hpn] at hpq
              exact hinv.angle_ok v p q hvp hpq hv hp hq

theorem relaxFold_inv (angleAt : Int → Int → Int → ℚ) (edgeLen : Int → Int → ℚ)
    (checkRadius : Int → Int → Bool) {startId current : Int} {currentDist : ℚ}
    {inRadius : Bool}
    (hlen : ∀ a b, 0 ≤ edgeLen a b) (hcur : 0 < current) :
    ∀ (ns : List Int) (s : RFState), (∀ m ∈ ns, m ≠ 0) →
      RelaxInv angleAt startId current currentDist s →
      RelaxInv angleAt startId current currentDist
        (ns.foldl (relaxOne angleAt edgeLen checkRadius current currentDist inRadius) s)
  | [], _, _, hinv => hinv
  | n :: rest, s, hns, hinv => by
    rw [List.foldl_cons]
    refine relaxFold_inv angleAt edgeLen checkRadius hlen hcur rest _
      (fun m hm => hns m (List.mem_cons_of_mem n hm)) ?_
    exact relaxOne_inv angleAt edgeLen checkRadius hlen hcur
      (hns n (List.mem_cons_self n rest)) hinv

/-- The Dijkstra invariant holding between `_process_next_node` calls:
queue entries dominate the recorded best distances, visited nodes carry
final (minimal) distances, predecessors of positive nodes are finalized
(so they never change again), every predecessor is the start id or a
positive node, and every fully-real predecessor triple passed the
turn-angle check. -/
structure SearchInv (angleAt : Int → Int → Int → ℚ) (startId : Int) (s : RFState) : Prop where
  entry_dist : ∀ e ∈ s.pq, ∃ dn, dictGetInt s.distances e.2.1 = some dn ∧ dn ≤ e.1
  entry_nz : ∀ e ∈ s.pq, e.2.1 ≠ 0
  visited_dist : ∀ u ∈ s.visited, ∃ du, dictGetInt s.distances u = some du
  visited_min : ∀ u ∈ s.visited, ∀ du, dictGetInt s.distances u = some du →
      ∀ e ∈ s.pq, du ≤ e.1
  prev_visited : ∀ v p, dictGetInt s.previous v = some p → 0 < p → p ∈ s.visited
  prev_shape : ∀ v p, dictGetInt s.previous v = some p → p = startId ∨ 0 < p
  angle_ok : ∀ v p q, dictGetInt s.previous v = some p → dictGetInt s.previous p = some q →
      0 < v → 0 < p → 0 < q → ¬ (180 - angleAt q p v > maxAngleBetweenRails)

theorem finish_inv {angleAt : Int → Int → Int → ℚ} {startId c : Int} {cd : ℚ}
    {s1 : RFState} (hrel : RelaxInv angleAt startId c cd s1) :
    SearchInv angleAt startId { s1 with visited := s1.visited ++ [c] } := by
  constructor
  · exact hrel.entry_dist
  · exact hrel.entry_nz
  · intro u hu
    rcases List.mem_append.mp hu with hu2 | hu2
    · exact hrel.visited_dist u hu2
    · rw [List.mem_singleton.mp hu2]
      exact hrel.cur_dist_some
  · intro u hu du hdu e he
    rcases List.mem_append.mp hu with hu2 | hu2
    · have h1 := hrel.visited_min u hu2 du hdu
      have h2 := hrel.pq_lb e he
      linarith
    · rw [List.mem_singleton.mp hu2] at hdu
      have h1 := hrel.cur_dist du hdu
      have h2 := hrel.pq_lb e he
      linarith
  · intro v p hp hppos
    rcases hrel.prev_vc v p hp hppos with h1 | h1
    · exact List.mem_append.mpr (Or.inl h1)
    · exact List.mem_append.mpr (Or.inr (List.mem_singleton.mpr h1))
  · exact hrel.prev_shape
  · exact hrel.angle_ok

theorem processNextNode_inv (angleAt : Int → Int → Int → ℚ) (edgeLen : Int → Int → ℚ)
    (checkRadius : Int → Int → Bool) (neighbors : Int → List Int) {startId : Int}
    {s : RFState}
    (hlen : ∀ a b, 0 ≤ edgeLen a b)
    (hneg : ∀ n : Int, n < 0 → neighbors n = [])
    (hnbr : ∀ c m, m ∈ neighbors c → m ≠ 0)
    (hinv : SearchInv angleAt startId s) :
    SearchInv angleAt startId (processNextNode angleAt edgeLen checkRadius neighbors s) := by
  unfold processNextNode
  cases hpop : popMin s.pq with
  | none => exact hinv
  | some pr =>
    obtain ⟨entry, rest⟩ := pr
    have hmem := popMin_mem hpop
    have hsub := popMin_subset hpop
    have hminr := popMin_min hpop
    dsimp only
    by_cases hvis : entry.2.1 ∈ s.visited
    · rw [if_pos hvis]
      constructor
      · intro e he
        exact hinv.entry_dist e (hsub e he)
      · intro e he
        exact hinv.entry_nz e (hsub e he)
      · exact hinv.visited_dist
      · intro u hu du hdu e he
        exact hinv.visited_min u hu du hdu e (hsub e he)
      · exact hinv.prev_visited
      · exact hinv.prev_shape
      · exact hinv.angle_ok
    · rw [if_neg hvis]
      have hrel : RelaxInv angleAt startId entry.2.1 entry.1 { s with pq := rest } := by
        constructor
        · intro e he
          exact hinv.entry_dist e (hsub e he)
        · intro e he
          exact hinv.entry_nz e (hsub e he)
        · intro e he
          exact hminr e he
        · exact hinv.visited_dist
        · intro u hu du hdu
          exact hinv.visited_min u hu du hdu entry hmem
        · intro dc hdc
          obtain ⟨dn, hdn, hle⟩ := hinv.entry_dist entry hmem
          rw [hdn] at hdc
          injection hdc with hdc2
          rw [← hdc2]
          exact hle
        · obtain ⟨dn, hdn, _⟩ := hinv.entry_dist entry hmem
          exact ⟨dn, hdn⟩
        · exact hvis
        · intro v p hp hppos
          exact Or.inl (hinv.prev_visited v p hp hppos)
        · exact hinv.prev_shape
        · exact hinv.angle_ok
      have hnz := hinv.entry_nz entry hmem
      rcases lt_trichotomy entry.2.1 0 with hneg1 | hzero | hpos1
      · rw [hneg entry.2.1 hneg1]
        rw [List.foldl_nil]
        exact finish_inv hrel
      · exact absurd hzero hnz
      · exact finish_inv (relaxFold_inv angleAt edgeLen checkRadius hlen hpos1
          (neighbors entry.2.1) _ (fun m hm => hnbr _ m hm) hrel)

theorem searchLoop_inv (angleAt : Int → Int → Int → ℚ) (edgeLen : Int → Int → ℚ)
    (checkRadius : Int → Int → Bool) (neighbors : Int → List Int) {startId : Int}
    (hlen : ∀ a b, 0 ≤ edgeLen a b)
    (hneg : ∀ n : Int, n < 0 → neighbors n = [])
    (hnbr : ∀ c m, m ∈ neighbors c → m ≠ 0) :
    ∀ (fuel : Nat) (s : RFState), SearchInv angleAt startId s →
      SearchInv angleAt startId (searchLoop angleAt edgeLen checkRadius neighbors fuel s)
  | 0, _, hinv => hinv
  | fuel + 1, s, hinv => by
    rw [searchLoop]
    by_cases hemp : s.pq = []
    · rw [if_pos hemp]
      exact hinv
    · rw [if_neg hemp]
      exact searchLoop_inv angleAt edgeLen checkRadius neighbors hlen hneg hnbr fuel _
        (processNextNode_inv angleAt edgeLen checkRadius neighbors hlen hneg hnbr hinv)

theorem dictSetInt_fresh {β : Type} {k : Int} {v : β} :
    ∀ {m : List (Int × β)}, (∀ kv ∈ m, kv.1 ≠ k) → dictSetInt m k v = m ++ [(k, v)]
  | [], _ => rfl
  | kv :: rest, h => by
    rw [dictSetInt, if_neg (h kv (List.mem_cons_self kv rest)),
      dictSetInt_fresh (fun kv2 h2 => h kv2 (List.mem_cons_of_mem kv h2))]
    rfl

theorem foldl_dictSetInt_eq {β : Type} (f : Int × ℚ → β) :
    ∀ (seeds : List (Int × ℚ)) (m : List (Int × β)),
      (∀ sd ∈ seeds, ∀ kv ∈ m, kv.1 ≠ sd.1) → (seeds.map (·.1)).Nodup →
      seeds.foldl (fun acc sd => dictSetInt acc sd.1 (f sd)) m
        = m ++ seeds.map (fun sd => (sd.1, f sd))
  | [], m, _, _ => by simp
  | sd :: rest, m, hfresh, hnd => by
    rw [List.foldl_cons,
      dictSetInt_fresh (fun kv hkv => hfresh sd (List.mem_cons_self sd rest) kv hkv)]
    have hnd2 : (rest.map (·.1)).Nodup := by
      rw [List.map_cons, List.nodup_cons] at hnd
      exact hnd.2
    have hhead : sd.1 ∉ rest.map (·.1) := by
      rw [List.map_cons, List.nodup_cons] at hnd
      exact hnd.1
    have hfresh2 : ∀ sd2 ∈ rest, ∀ kv ∈ m ++ [(sd.1, f sd)], kv.1 ≠ sd2.1 := by
      intro sd2 hsd2 kv hkv
      rcases List.mem_append.mp hkv with hkv2 | hkv2
      · exact hfresh sd2 (List.mem_cons_of_mem sd hsd2) kv hkv2
      · rw [List.mem_singleton.mp hkv2]
        intro he
        exact hhead (he ▸ List.mem_map.mpr ⟨sd2, hsd2, rfl⟩)
    rw [foldl_dictSetInt_eq f rest (m ++ [(sd.1, f sd)]) hfresh2 hnd2]
    simp

theorem initCollections_inv (angleAt : Int → Int → Int → ℚ) {startId : Int}
    (seeds : List (Int × ℚ)) (hnd : (seeds.map (·.1)).Nodup)
    (hpos : ∀ sd ∈ seeds, 0 < sd.1) (hstart : startId < 0) :
    SearchInv angleAt startId (initCollections seeds startId) := by
  have hdist : (initCollections seeds startId).distances
      = seeds.map (fun sd => (sd.1, sd.2)) := by
    have h := foldl_dictSetInt_eq (fun sd => sd.2) seeds []
      (fun sd _ kv hkv => absurd hkv (List.not_mem_nil kv)) hnd
    simpa using h
  have hprev : (initCollections seeds startId).previous
      = seeds.map (fun sd => (sd.1, startId)) := by
    have h := foldl_dictSetInt_eq (fun _ => startId) seeds []
      (fun sd _ kv hkv => absurd hkv (List.not_mem_nil kv)) hnd
    simpa using h
  have hkeys : ((seeds.map (fun sd => (sd.1, sd.2))).map (·.1)) = seeds.map (·.1) := by
    rw [List.map_map]
    rfl
  have hprev_start : ∀ v p, dictGetInt (initCollections seeds startId).previous v = some p →
      p = startId := by
    intro v p hp
    rw [hprev] at hp
    obtain ⟨sd, _, heq⟩ := List.mem_map.mp (dictGetInt_mem hp)
    have h2 : startId = p := congrArg Prod.snd heq
    exact h2.symm
  constructor
  · intro e he
    obtain ⟨sd, hsd, hesd⟩ := List.mem_map.mp he
    refine ⟨sd.2, ?_, ?_⟩
    · have he21 : e.2.1 = sd.1 := by rw [← hesd]
      rw [he21, hdist]
      exact dictGetInt_of_mem_nodup (hkeys ▸ hnd) (List.mem_map.mpr ⟨sd, hsd, rfl⟩)
    · have he1 : e.1 = sd.2 := by rw [← hesd]
      rw [he1]
  · intro e he
    obtain ⟨sd, hsd, hesd⟩ := List.mem_map.mp he
    have he21 : e.2.1 = sd.1 := by rw [← hesd]
    rw [he21]
    exact ne_of_gt (hpos sd hsd)
  · intro u hu
    exact absurd hu (List.not_mem_nil u)
  · intro u hu
    exact absurd hu (List.not_mem_nil u)
  · intro v p hp hppos
    have := hprev_start v p hp
    rw [this] at hppos
    exact absurd hppos (not_lt.mpr (le_of_lt hstart))
  · intro v p hp
    exact Or.inl (hprev_start v p hp)
  · intro v p q hvp _ _ hp _
    have := hprev_start v p hvp
    rw [this] at hp
    exact absurd hp (not_lt.mpr (le_of_lt hstart))

theorem chainLinked_tail {previous : List (Int × Int)} {x : Int} {l : List Int}
    (h : ChainLinked previous (x :: l)) : ChainLinked previous l := by
  cases l with
  | nil => trivial
  | cons y rest => exact h.2

theorem chainLinked_drop {previous : List (Int × Int)} :
    ∀ (l1 l : List Int), ChainLinked previous (l1 ++ l) → ChainLinked previous l
  | [], _, h => h
  | x :: l1, l, h => chainLinked_drop l1 l (chainLinked_tail h)

theorem chainLinked_append {previous : List (Int × Int)} {v : Int} :
    ∀ {l : List Int}, ChainLinked previous l →
      (∀ a, l.getLast? = some a → dictGetInt previous a = some v) →
      ChainLinked previous (l ++ [v])
  | [], _, _ => trivial
  | [a], _, hlast => by
    exact ⟨hlast a rfl, trivial⟩
  | a :: b :: rest, h, hlast => by
    refine ⟨h.1, ?_⟩
    exact chainLinked_append (l := b :: rest) h.2
      (fun x hx => hlast x (by rw [List.getLast?_cons_cons]; exact hx))

theorem gatherPath_chain (previous : List (Int × Int)) (startId : Int)
    (hshape : ∀ v p, dictGetInt previous v = some p → p = startId ∨ 0 < p) :
    ∀ (fuel : Nat) (v : Int) (acc path : List Int),
      gatherPath previous startId fuel v acc = some path →
      ChainLinked previous acc →
      (∀ x ∈ acc, 0 < x) →
      (∀ a, acc.getLast? = some a → dictGetInt previous a = some v) →
      (0 < v ∨ v = startId ∨ acc = []) →
      ChainLinked previous path ∧ ∀ x ∈ path, 0 < x
  | 0, v, acc, path, h, _, _, _, _ => by simp [gatherPath] at h
  | fuel + 1, v, acc, path, h, hchain, hposl, hlast, hok => by
    rw [gatherPath] at h
    by_cases hv : v = startId
    · rw [if_pos hv] at h
      injection h with h2
      rw [← h2]
      exact ⟨hchain, hposl⟩
    · rw [if_neg hv] at h
      cases hprev : dictGetInt previous v with
      | none =>
        rw [hprev] at h
        exact absurd h (by simp)
      | some p =>
        rw [hprev] at h
        dsimp only at h
        have hpshape := hshape v p hprev
        by_cases hvpos : 0 < v
        · rw [if_pos hvpos] at h
          refine gatherPath_chain previous startId hshape fuel p (acc ++ [v]) path h
            (chainLinked_append hchain hlast) ?_ ?_ ?_
          · intro x hx
            rcases List.mem_append.mp hx with hx2 | hx2
            · exact hposl x hx2
            · rw [List.mem_singleton.mp hx2]
              exact hvpos
          · intro a ha
            rw [List.getLast?_concat] at ha
            injection ha with ha2
            rw [← ha2]
            exact hprev
          · rcases hpshape with h3 | h3
            · exact Or.inr (Or.inl h3)
            · exact Or.inl h3
        · rw [if_neg hvpos] at h
          have hacc : acc = [] := by
            rcases hok with h3 | h3 | h3
            · exact absurd h3 hvpos
            · exact absurd h3 hv
            · exact h3
          subst hacc
          refine gatherPath_chain previous startId hshape fuel p [] path h trivial
            (fun x hx => absurd hx (List.not_mem_nil x))
            (fun a ha => by simp at ha) ?_
          rcases hpshape with h3 | h3
          · exact Or.inr (Or.inl h3)
          · exact Or.inl h3

/-- Claim C9: (1) during relaxation, an edge extending through two
consecutive real (positive-id) nodes from a real predecessor is
rejected — the state is unchanged — whenever 180° minus the angle at
the middle node exceeds the 75° sharpness threshold; (2) a continuation
within the threshold is not rejected by this rule (when the remaining
admission checks pass, the neighbor's distance and predecessor are
updated); (3) consequently, in a search run from an initial seeding, no
gathered rail path traverses three consecutive real nodes whose
direction reversal exceeds the threshold. -/
theorem c9_angle_pruning (angleAt : Int → Int → Int → ℚ) (edgeLen : Int → Int → ℚ)
    (checkRadius : Int → Int → Bool) (neighbors : Int → List Int) (startId : Int) :
    (∀ (s : RFState) (current neighbor p : Int) (currentDist : ℚ) (inRadius : Bool),
       dictGetInt s.previous current = some p → 0 < current → 0 < neighbor → 0 < p →
       180 - angleAt p current neighbor > maxAngleBetweenRails →
       relaxOne angleAt edgeLen checkRadius current currentDist inRadius s neighbor = s)
    ∧ (∀ (s : RFState) (current neighbor p : Int) (currentDist : ℚ) (inRadius : Bool),
       dictGetInt s.previous current = some p → 0 < current → 0 < neighbor → 0 < p →
       ¬ (180 - angleAt p current neighbor > maxAngleBetweenRails) →
       (match dictGetInt s.distances neighbor with
        | some d => currentDist + edgeLen current neighbor < d
        | none => True) →
       ¬ currentDist + edgeLen current neighbor > stationSearchCutoff →
       (inRadius = false ∨ (currentDist + edgeLen current neighbor ≥ 2 * stationHitboxRadius
          ∧ checkRadius current neighbor = true)) →
       dictGetInt (relaxOne angleAt edgeLen checkRadius current currentDist inRadius
           s neighbor).previous neighbor = some current
       ∧ dictGetInt (relaxOne angleAt edgeLen checkRadius current currentDist inRadius
           s neighbor).distances neighbor
         = some (currentDist + edgeLen current neighbor))
    ∧ ((∀ a b, 0 ≤ edgeLen a b) → (∀ n : Int, n < 0 → neighbors n = []) →
       (∀ c m, m ∈ neighbors c → m ≠ 0) → startId < 0 →
       ∀ (seeds : List (Int × ℚ)), (seeds.map (·.1)).Nodup → (∀ sd ∈ seeds, 0 < sd.1) →
       ∀ (fuel fuel2 : Nat) (targetId : Int) (path l1 l2 : List Int) (a b c : Int),
         gatherPath (searchLoop angleAt edgeLen checkRadius neighbors fuel
           (initCollections seeds startId)).previous startId fuel2 targetId [] = some path →
         path = l1 ++ a :: b :: c :: l2 →
         ¬ (180 - angleAt c b a > maxAngleBetweenRails)) := by
  refine ⟨?_, ?_, ?_⟩
  · intro s current neighbor p currentDist inRadius hprev hc hn hp hsharp
    unfold relaxOne
    rw [if_pos ⟨hc, hn, by rw [hprev]; exact hp, by rw [hprev]; exact hsharp⟩]
  · intro s current neighbor p currentDist inRadius hprev hc hn hp hns himp hcut hrad
    unfold relaxOne
    have hc1 : ¬ (0 < current ∧ 0 < neighbor
        ∧ 0 < (dictGetInt s.previous current).getD 0
        ∧ 180 - angleAt ((dictGetInt s.previous current).getD 0) current neighbor
            > maxAngleBetweenRails) := by
      intro hcon
      apply hns
      have h4 := hcon.2.2.2
      rw [hprev] at h4
      exact h4
    rw [if_neg hc1]
    have hc2 : ¬ ((match dictGetInt s.distances neighbor with
           | some d => decide (currentDist + edgeLen current neighbor ≥ d)
           | none => false) = true
          ∨ currentDist + edgeLen current neighbor > stationSearchCutoff) := by
      intro hcon
      rcases hcon with hcon | hcon
      · cases hdist : dictGetInt s.distances neighbor with
        | some d =>
          rw [hdist] at hcon himp
          have hge := of_decide_eq_true hcon
          dsimp only at himp
          linarith
        | none =>
          rw [hdist] at hcon
          simp at hcon
      · exact hcut hcon
    rw [if_neg hc2]
    have hc3 : ¬ (¬ (currentDist + edgeLen current neighbor ≥ 2 * stationHitboxRadius
             ∧ checkRadius current neighbor = true) ∧ inRadius = true) := by
      intro hcon
      rcases hrad with hrad | hrad
      · rw [hrad] at hcon
        exact absurd hcon.2 (by simp)
      · exact hcon.1 hrad
    rw [if_neg hc3]
    exact ⟨dictGetInt_set_self _ _ _, dictGetInt_set_self _ _ _⟩
  · intro hlen hneg hnbr hstart seeds hnd hposs fuel fuel2 targetId path l1 l2 a b c hg hpath
    have hinv := searchLoop_inv angleAt edgeLen checkRadius neighbors hlen hneg hnbr fuel
      (initCollections seeds startId) (initCollections_inv angleAt seeds hnd hposs hstart)
    obtain ⟨hlink, hpos3⟩ := gatherPath_chain
      (searchLoop angleAt edgeLen checkRadius neighbors fuel
        (initCollections seeds startId)).previous startId hinv.prev_shape fuel2 targetId
      [] path hg trivial (fun x hx => absurd hx (List.not_mem_nil x))
      (fun x hx => by simp at hx) (Or.inr (Or.inr rfl))
    subst hpath
    have htr := chainLinked_drop l1 _ hlink
    have hab : dictGetInt (searchLoop angleAt edgeLen checkRadius neighbors fuel
        (initCollections seeds startId)).previous a = some b := htr.1
    have hbc : dictGetInt (searchLoop angleAt edgeLen checkRadius neighbors fuel
        (initCollections seeds startId)).previous b = some c := htr.2.1
    refine hinv.angle_ok a b c hab hbc ?_ ?_ ?_
    · exact hpos3 a (List.mem_append.mpr (Or.inr (List.mem_cons_self a _)))
    · exact hpos3 b (List.mem_append.mpr (Or.inr
        (List.mem_cons_of_mem a (List.mem_cons_self b _))))
    · exact hpos3 c (List.mem_append.mpr (Or.inr
        (List.mem_cons_of_mem a (List.mem_cons_of_mem b (List.mem_cons_self c _)))))

theorem c9_angle_pruning_witness :
    relaxOne (fun _ _ _ => 30) (fun _ _ => 1) (fun _ _ => true) 5 0 false
      ⟨[], [], [(5, 4)], []⟩ 6 = ⟨[], [], [(5, 4)], []⟩ :=
  (c9_angle_pruning (fun _ _ _ => 30) (fun _ _ => 1) (fun _ _ => true) (fun _ => []) (-1)).1
    ⟨[], [], [(5, 4)], []⟩ 5 6 4 0 false (by rfl) (by decide) (by decide) (by decide)
    (by norm_num [maxAngleBetweenRails])

theorem c2_duplicate_detection_witness :
    let s1 : TrainStop := ⟨"Alpha", some 1, none, none⟩
    let s2 : TrainStop := ⟨"Beta", some 2, none, none⟩
    let t1 : Train := ⟨"IC", 1, none, [s1, s2], ∅⟩
    let tr : Train := ⟨"IC", 3, none, [s1, s2], ∅⟩
    findDuplicateSubtrain [t1] [(s1, t1), (s2, t1)] tr
      = firstAdjacentDup (tr.stops.filterMap (lookupStop [(s1, t1), (s2, t1)])) :=
  (c2_duplicate_detection _ _ _ (by decide)).1

end DelaTrain
